import Mathlib

/-!
# ktools: the `split-manifests` command

A shallow embedding of `pkg/cmd/splitmanifests/splitmanifests.go` and the
properties of `Validate`, `Run` and the command function that hold on it.

Conventions of the embedding:

* Go strings are `String`; `len(s) == 0` is `s = ""`.
* `filepath.Clean`, `filepath.Join` and `filepath.Dir` follow the Unix
  implementation of the Go standard library, element by element.
* The file system is explicit state, passed to and returned from every
  function that touches it, so that what is on disk when an error is returned
  can be stated.  A path names at most one node; paths are compared as text.
  For a path whose entry exists `os.Mkdir` answers `EEXIST` and `os.WriteFile`
  rewrites a file; for a missing entry both need the parent `filepath.Dir`
  to be a directory.
* The libraries outside the repository that `Run` calls are the fields of
  `Env`: the YAML serializer, the template library and the Unicode case table
  above ASCII.  The general theorems hold for every `Env`.  `goTemplate` is
  the fragment of `text/template` that the default filename template uses.
* The resource visitor is the sequence of items it delivers to the visitor
  function, and the error it ends with itself.  Log output is not modelled.
-/

set_option autoImplicit false

namespace KTools

/-! ## Paths -/

/-- Split a path at every separator, as the scanning loop of `filepath.Clean`
delimits path elements. -/
def splitSlash : List Char → List (List Char)
  | [] => [[]]
  | c :: cs =>
    if c = '/' then [] :: splitSlash cs
    else
      match splitSlash cs with
      | [] => [[c]]
      | h :: t => (c :: h) :: t

/-- Path elements joined by single separators. -/
def joinSlash : List (List Char) → List Char
  | [] => []
  | [c] => c
  | c :: d :: cs => c ++ '/' :: joinSlash (d :: cs)

/-- One round of the loop of `filepath.Clean`, taken per path element.  The
state is the number of leading `..` elements already written (the part of the
buffer below the index `dotdot`) and the elements written after them, last one
first: an empty or `.` element is skipped, a `..` element removes the last
written element, or is written itself when there is none and the path is not
rooted, and any other element is written. -/
def cleanStep (rooted : Bool) (st : Nat × List (List Char)) (c : List Char) :
    Nat × List (List Char) :=
  if c = [] then st
  else if c = ['.'] then st
  else if c = ['.', '.'] then
    match st.2 with
    | _ :: rest => (st.1, rest)
    | [] => if rooted then st else (st.1 + 1, [])
  else (st.1, c :: st.2)

/-- The text `Clean` returns for the final loop state: the elements joined,
after the leading separator of a rooted path, and `.` when nothing was
written. -/
def cleanRender (rooted : Bool) (st : Nat × List (List Char)) : List Char :=
  let body := joinSlash (List.replicate st.1 ['.', '.'] ++ st.2.reverse)
  if rooted then '/' :: body
  else if body = [] then ['.'] else body

/-- Go `filepath.Clean` on Unix, over the characters of the path. -/
def cleanChars (path : List Char) : List Char :=
  match path with
  | [] => ['.']
  | c0 :: _ =>
    let rooted : Bool := decide (c0 = '/')
    cleanRender rooted ((splitSlash path).foldl (cleanStep rooted) (0, []))

/-- A path element that the loop copies to the output. -/
def Plain (c : List Char) : Prop := c ≠ [] ∧ c ≠ ['.'] ∧ c ≠ ['.', '.'] ∧ '/' ∉ c

/-- Loop invariant of `Clean`. -/
def CleanInv (rooted : Bool) (st : Nat × List (List Char)) : Prop :=
  (rooted = true → st.1 = 0) ∧ ∀ c ∈ st.2, Plain c

/-- The elements `Clean` has written when the loop ends. -/
def cleanElems (st : Nat × List (List Char)) : List (List Char) :=
  List.replicate st.1 ['.', '.'] ++ st.2.reverse

/-- Go `filepath.Clean`. -/
def Clean (path : String) : String := ⟨cleanChars path.data⟩

/-- Go `strings.Join`. -/
def stringsJoin : List String → String → String
  | [], _ => ""
  | [e], _ => e
  | e :: d :: es, sep => e ++ sep ++ stringsJoin (d :: es) sep

/-- Go `filepath.Join` on Unix: the elements from the first non-empty one on
are joined with the separator and the result is cleaned; when every element is
empty the result is the empty string. -/
def Join : List String → String
  | [] => ""
  | e :: es => if e ≠ "" then Clean (stringsJoin (e :: es) "/") else Join es

/-- The path up to and including its last separator (`path[:i+1]` in
`filepath.Dir`). -/
def dirPart (path : List Char) : List Char :=
  (path.reverse.dropWhile (fun c => c ≠ '/')).reverse

/-- Go `filepath.Dir`: all but the last element of the path, cleaned. -/
def Dir (path : String) : String := ⟨cleanChars (dirPart path.data)⟩

/-! ## Strings -/

/-- Go `unicode.ToLower`: ASCII letters are shifted by `'a' - 'A'`, every other
ASCII rune is kept, and a rune above `unicode.MaxASCII` is mapped through the
Unicode case tables, which are the parameter `tbl`. -/
def unicodeToLower (tbl : Char → Char) (r : Char) : Char :=
  if r.toNat ≤ 0x7F then
    if 'A'.toNat ≤ r.toNat ∧ r.toNat ≤ 'Z'.toNat then Char.ofNat (r.toNat + ('a'.toNat - 'A'.toNat))
    else r
  else tbl r

/-- Go `strings.ToLower`: every rune mapped to lower case. -/
def ToLower (tbl : Char → Char) (s : String) : String := ⟨s.data.map (unicodeToLower tbl)⟩

/-- Two runes that are one letter in two cases: the same rune, an ASCII
capital letter and the small letter 32 above it, in either order, or two runes
above ASCII that the Unicode case table maps to the same lower-case rune. -/
def sameLetter (tbl : Char → Char) (a b : Char) : Prop :=
  a = b ∨ (65 ≤ a.toNat ∧ a.toNat ≤ 90 ∧ b.toNat = a.toNat + 32) ∨
    (65 ≤ b.toNat ∧ b.toNat ≤ 90 ∧ a.toNat = b.toNat + 32) ∨
    (0x7F < a.toNat ∧ 0x7F < b.toNat ∧ tbl a = tbl b)

/-- Two strings that differ only in letter case: of the same length, with one
letter in two cases at every position. -/
def differOnlyInCase (tbl : Char → Char) (k1 k2 : String) : Prop :=
  List.Forall₂ (sameLetter tbl) k1.data k2.data

/-! ## File system -/

/-- Error numbers the two file-system calls of `Run` can return. -/
inductive Errno where
  | EEXIST
  | ENOENT
  | ENOTDIR
  | EISDIR
  deriving DecidableEq, Repr

/-- What a path names. -/
inductive Node where
  | dir
  | file (content : String)
  deriving DecidableEq, Repr

/-- The file system: the existing paths and what each names.  Paths are
compared as text; every path `Run` passes to the file system comes out of
`filepath.Join` and is therefore cleaned.  Directories such as `.` and `/`
exist when they are listed. -/
abbrev FS := List (String × Node)

/-- The node a path names, if it exists. -/
def FS.lookup : FS → String → Option Node
  | [], _ => none
  | (q, n) :: rest, p => if q = p then some n else FS.lookup rest p

/-- The file system with path `p` naming `n`. -/
def FS.set (fs : FS) (p : String) (n : Node) : FS :=
  (p, n) :: fs.filter (fun e => decide (e.1 ≠ p))

/-- Go `os.IsExist`. -/
def IsExist (e : Errno) : Bool := decide (e = Errno.EEXIST)

/-- Go `os.Mkdir`: fails with `EEXIST` when the path exists, with `ENOENT` or
`ENOTDIR` when its parent is missing or is a file, and creates the directory
otherwise. -/
def Mkdir (fs : FS) (name : String) : Except Errno FS :=
  match fs.lookup name with
  | some _ => .error Errno.EEXIST
  | none =>
    match fs.lookup (Dir name) with
    | some Node.dir => .ok (fs.set name Node.dir)
    | some (Node.file _) => .error Errno.ENOTDIR
    | none => .error Errno.ENOENT

/-- Go `os.WriteFile` (`O_WRONLY|O_CREATE|O_TRUNC`): fails with `EISDIR` on a
directory, truncates and rewrites an existing file, and creates the file when
its parent is a directory. -/
def WriteFile (fs : FS) (name : String) (data : String) : Except Errno FS :=
  match fs.lookup name with
  | some Node.dir => .error Errno.EISDIR
  | some (Node.file _) => .ok (fs.set name (Node.file data))
  | none =>
    match fs.lookup (Dir name) with
    | some Node.dir => .ok (fs.set name (Node.file data))
    | some (Node.file _) => .error Errno.ENOTDIR
    | none => .error Errno.ENOENT

/-- Whether a node is a regular file. -/
def Node.isFile : Node → Bool
  | Node.dir => false
  | Node.file _ => true

/-- Paths of the regular files that satisfy `P`. -/
def FS.files (P : String → Bool) (fs : FS) : List String :=
  (fs.filter (fun e => e.2.isFile && P e.1)).map (fun e => e.1)

/-- Whether path `p` lies below directory `dir`. -/
def underDir (dir p : String) : Bool := (dir.data ++ ['/']).isPrefixOf p.data

/-! ## Data model -/

/-- Go `schema.GroupVersionKind`. -/
structure GroupVersionKind where
  Group : String
  Version : String
  Kind : String
  deriving DecidableEq, Repr

/-- Go `templateData`. -/
structure templateData where
  Namespace : String
  Name : String
  GVK : GroupVersionKind
  deriving DecidableEq, Repr

/-- The decoded object of a `resource.Info`: its group/version/kind and its
document. -/
structure Object where
  gvk : GroupVersionKind
  content : String
  deriving DecidableEq, Repr

/-- Go `resource.Info`, the fields `Run` reads. -/
structure Info where
  Source : String
  Namespace : String
  Name : String
  Object : Object
  deriving DecidableEq, Repr

/-- Go `genericclioptions.FileNameFlags`, the field `Run` reads. -/
structure FileNameFlags where
  Filenames : List String
  deriving DecidableEq, Repr

/-- Go `SplitManifestsOptions`. -/
structure SplitManifestsOptions where
  FileNameFlags : FileNameFlags
  OutputDir : String
  NamespacedDirName : String
  ClusterScopedDirname : String
  FileNameTemplate : String
  deriving DecidableEq, Repr

/-- Go `NewSplitManifestsOptions`. -/
def NewSplitManifestsOptions : SplitManifestsOptions :=
  { FileNameFlags := { Filenames := [] }
    OutputDir := "."
    NamespacedDirName := "namespaces"
    ClusterScopedDirname := "cluster-scoped"
    FileNameTemplate :=
      "\x7b\x7b .Name \x7d\x7d\x7b\x7b if .GVK.Kind \x7d\x7d.\x7b\x7b end \x7d\x7d\x7b\x7b .GVK.Kind \x7d\x7d.yaml" }

/-- An error value of a library outside this repository, by its message. -/
abbrev ExtError := String

/-- The errors `Validate` and `Run` return, one constructor per `fmt.Errorf`
call; `visitor` is an error of the resource visitor returned as it is. -/
inductive RunError where
  /-- Go `"at least one filename has to be specified"`. -/
  | noFilename
  /-- Go `"can't make directory %q: %w"`. -/
  | cantMakeDirectory (p : String) (cause : Errno)
  /-- The error handed to the visitor function, or returned by the visitor. -/
  | visitor (cause : ExtError)
  /-- Go `"name can't be empty"`. -/
  | nameEmpty
  /-- Go `"can't marshal object %q: %w"`. -/
  | cantMarshal (info : Info) (cause : ExtError)
  /-- Go `"can't parse filename template %q: %w"`. -/
  | cantParseTemplate (tmpl : String) (cause : ExtError)
  /-- Go `"can't execute filename template: %w"`. -/
  | cantExecuteTemplate (cause : ExtError)
  /-- Go `"can't write file: filename template rendered empty string"`. -/
  | emptyFilename
  /-- Go `"can't write file %q :%w"`. -/
  | cantWriteFile (p : String) (cause : Errno)
  deriving DecidableEq, Repr

/-- The libraries `Run` calls, outside this repository. -/
structure Env where
  /-- Go `yaml.Marshal`. -/
  marshal : Object → Except ExtError String
  /-- Go `template.New("filename").Parse`; the parsed template is given by
  what `Execute` writes for each data value. -/
  parse : String → Except ExtError (templateData → Except ExtError String)
  /-- The Unicode lower-case mapping above ASCII. -/
  lowerTable : Char → Char

deriving instance DecidableEq for Except

/-! ## The filename template language

The fragment of Go `text/template` the default filename template is written
in: literal text, field chains on the data, and a conditional on a field with
an optional else branch.  A template outside the fragment is answered with an
error that starts with `unsupported`. -/

/-- A piece of the template text: literal text, or the inside of an action. -/
inductive Seg where
  | text (s : List Char)
  | action (s : List Char)
  deriving DecidableEq, Repr

/-- The lexer: text up to the left delimiter, an action up to the right one. -/
def lexTemplate : List Char → Bool → List Char → Except ExtError (List Seg)
  | [], inAction, acc =>
    if inAction then .error "unclosed action" else .ok [Seg.text acc.reverse]
  | [c], inAction, acc =>
    if inAction then .error "unclosed action" else .ok [Seg.text (c :: acc).reverse]
  | c :: d :: rest, inAction, acc =>
    if !inAction && c = '\x7b' && d = '\x7b' then
      (lexTemplate rest true []).map (fun l => Seg.text acc.reverse :: l)
    else if inAction && c = '\x7d' && d = '\x7d' then
      (lexTemplate rest false []).map (fun l => Seg.action acc.reverse :: l)
    else lexTemplate (d :: rest) inAction (c :: acc)

/-- Split a character sequence at the characters satisfying `p`. -/
def splitWhere (p : Char → Bool) : List Char → List (List Char)
  | [] => [[]]
  | c :: cs =>
    if p c then [] :: splitWhere p cs
    else
      match splitWhere p cs with
      | [] => [[c]]
      | h :: t => (c :: h) :: t

/-- Whether a character may stand in a field name. -/
def isIdentChar (c : Char) : Bool := c.isAlphanum || c = '_'

/-- A field chain such as `.GVK.Kind`, as the list of its field names. -/
def fieldChain (w : List Char) : Option (List String) :=
  match splitWhere (fun c => c = '.') w with
  | [] :: n :: ns =>
    if (n :: ns).all (fun x => !x.isEmpty && x.all isIdentChar) then
      some ((n :: ns).map String.mk)
    else none
  | _ => none

/-- The actions of the fragment. -/
inductive Action where
  | print (chain : List String)
  | ifField (chain : List String)
  | elseBranch
  | endBlock
  deriving DecidableEq, Repr

/-- The action written between a pair of delimiters. -/
def parseAction (s : List Char) : Except ExtError Action :=
  match (splitWhere (fun c => c = ' ' || c = '\t') s).filter (fun w => !w.isEmpty) with
  | [w] =>
    if w = "end".data then .ok Action.endBlock
    else if w = "else".data then .ok Action.elseBranch
    else
      match fieldChain w with
      | some ch => .ok (Action.print ch)
      | none => .error "unsupported action"
  | [k, w] =>
    if k = "if".data then
      match fieldChain w with
      | some ch => .ok (Action.ifField ch)
      | none => .error "unsupported action"
    else .error "unsupported action"
  | _ => .error "unsupported action"

/-- A node without a body: literal text or a printed field chain. -/
inductive Leaf where
  | text (s : String)
  | field (chain : List String)
  deriving DecidableEq, Repr

/-- A node of the parsed template; the branches of a conditional hold leaves
only, a nested conditional is outside the fragment. -/
inductive TNode where
  | leaf (l : Leaf)
  | cond (chain : List String) (thenList : List Leaf) (elseList : List Leaf)
  deriving DecidableEq, Repr

/-- The conditional being parsed: its field chain, the leaves of its first
branch, and the leaves of its else branch once that has begun (both last one
first). -/
structure OpenIf where
  chain : List String
  thenRev : List Leaf
  elseRev : Option (List Leaf)
  deriving DecidableEq, Repr

/-- The parser state: the finished nodes, last one first, and the open
conditional. -/
structure PState where
  done : List TNode
  cur : Option OpenIf
  deriving DecidableEq, Repr

/-- Add a leaf at the current position. -/
def PState.addLeaf (st : PState) (l : Leaf) : PState :=
  match st.cur with
  | none => { st with done := TNode.leaf l :: st.done }
  | some oi =>
    match oi.elseRev with
    | none => { st with cur := some { oi with thenRev := l :: oi.thenRev } }
    | some er => { st with cur := some { oi with elseRev := some (l :: er) } }

/-- Parse one piece of the template. -/
def parseSeg (st : PState) : Seg → Except ExtError PState
  | Seg.text s => if s.isEmpty then .ok st else .ok (st.addLeaf (Leaf.text ⟨s⟩))
  | Seg.action s =>
    match parseAction s with
    | .error e => .error e
    | .ok (Action.print ch) => .ok (st.addLeaf (Leaf.field ch))
    | .ok (Action.ifField ch) =>
      match st.cur with
      | some _ => .error "unsupported nested if"
      | none => .ok { st with cur := some { chain := ch, thenRev := [], elseRev := none } }
    | .ok Action.elseBranch =>
      match st.cur with
      | none => .error "unexpected else"
      | some oi =>
        match oi.elseRev with
        | some _ => .error "unexpected else"
        | none => .ok { st with cur := some { oi with elseRev := some [] } }
    | .ok Action.endBlock =>
      match st.cur with
      | none => .error "unexpected end"
      | some oi =>
        .ok { done := TNode.cond oi.chain oi.thenRev.reverse
                ((oi.elseRev.getD []).reverse) :: st.done
              cur := none }

/-- Parse the pieces in order. -/
def parseSegs : PState → List Seg → Except ExtError PState
  | st, [] => .ok st
  | st, s :: rest =>
    match parseSeg st s with
    | .error e => .error e
    | .ok st1 => parseSegs st1 rest

/-- Go `Template.Parse`, on the fragment. -/
def parseTemplate (text : String) : Except ExtError (List TNode) :=
  match lexTemplate text.data false [] with
  | .error e => .error e
  | .ok segs =>
    match parseSegs { done := [], cur := none } segs with
    | .error e => .error e
    | .ok st =>
      match st.cur with
      | some _ => .error "unexpected EOF"
      | none => .ok st.done.reverse

/-- A value a field chain evaluates to. -/
inductive Value where
  | str (s : String)
  | gvk (g : GroupVersionKind)
  deriving DecidableEq, Repr

/-- Evaluate a field chain on the template data. -/
def evalField (d : templateData) (chain : List String) : Except ExtError Value :=
  if chain = ["Namespace"] then .ok (Value.str d.Namespace)
  else if chain = ["Name"] then .ok (Value.str d.Name)
  else if chain = ["GVK"] then .ok (Value.gvk d.GVK)
  else if chain = ["GVK", "Group"] then .ok (Value.str d.GVK.Group)
  else if chain = ["GVK", "Version"] then .ok (Value.str d.GVK.Version)
  else if chain = ["GVK", "Kind"] then .ok (Value.str d.GVK.Kind)
  else .error "can't evaluate field"

/-- The text an action prints for a value; a group/version/kind prints through
its `String` method. -/
def Value.print : Value → String
  | Value.str s => s
  | Value.gvk g => g.Group ++ "/" ++ g.Version ++ ", Kind=" ++ g.Kind

/-- The truth of a value in a conditional: a string is true when it is not
empty, a struct is always true. -/
def Value.truth : Value → Bool
  | Value.str s => decide (s ≠ "")
  | Value.gvk _ => true

/-- Execute a leaf. -/
def execLeaf (d : templateData) : Leaf → Except ExtError String
  | Leaf.text s => .ok s
  | Leaf.field ch =>
    match evalField d ch with
    | .error e => .error e
    | .ok v => .ok v.print

/-- Execute leaves in order, up to the first error. -/
def execLeaves (d : templateData) : List Leaf → Except ExtError String
  | [] => .ok ""
  | l :: rest =>
    match execLeaf d l with
    | .error e => .error e
    | .ok s =>
      match execLeaves d rest with
      | .error e => .error e
      | .ok t => .ok (s ++ t)

/-- Execute a node. -/
def execNode (d : templateData) : TNode → Except ExtError String
  | TNode.leaf l => execLeaf d l
  | TNode.cond ch thenList elseList =>
    match evalField d ch with
    | .error e => .error e
    | .ok v => if v.truth then execLeaves d thenList else execLeaves d elseList

/-- Go `Template.Execute`, on the fragment: what is written to the buffer. -/
def execNodes (d : templateData) : List TNode → Except ExtError String
  | [] => .ok ""
  | n :: rest =>
    match execNode d n with
    | .error e => .error e
    | .ok s =>
      match execNodes d rest with
      | .error e => .error e
      | .ok t => .ok (s ++ t)

/-- The template library, on the fragment. -/
def goTemplate (text : String) : Except ExtError (templateData → Except ExtError String) :=
  match parseTemplate text with
  | .error e => .error e
  | .ok nodes => .ok (fun d => execNodes d nodes)


/-! ## The command -/

/-- Go `SplitManifestsOptions.Validate`. -/
def Validate (o : SplitManifestsOptions) : Option RunError :=
  if o.FileNameFlags.Filenames.length = 0 then some RunError.noFilename else none

/-- Go `SplitManifestsOptions.Complete`. -/
def Complete (_o : SplitManifestsOptions) : Option RunError := none

/-- The loop of `Run` that creates the top-level directories. -/
def makeDirs (o : SplitManifestsOptions) : List String → FS → FS × Option RunError
  | [], fs => (fs, none)
  | d :: ds, fs =>
    let p := Join [o.OutputDir, d]
    match Mkdir fs p with
    | .error err => (fs, some (RunError.cantMakeDirectory p err))
    | .ok fs1 => makeDirs o ds fs1

/-- The data the filename template is executed on. -/
def mkTemplateData (env : Env) (info : Info) : templateData :=
  { Namespace := info.Namespace
    Name := info.Name
    GVK :=
      { Group := ToLower env.lowerTable info.Object.gvk.Group
        Version := ToLower env.lowerTable info.Object.gvk.Version
        Kind := ToLower env.lowerTable info.Object.gvk.Kind } }

/-- The choice of the destination directory in the visitor function, with the
creation of the namespace directory. -/
def makeDestDir (o : SplitManifestsOptions) (fs : FS) (info : Info) :
    Except RunError (FS × String) :=
  if info.Namespace ≠ "" then
    let destDir := Join [o.OutputDir, o.NamespacedDirName, info.Namespace]
    match Mkdir fs destDir with
    | .error err =>
      if !IsExist err then .error (RunError.cantMakeDirectory destDir err)
      else .ok (fs, destDir)
    | .ok fs1 => .ok (fs1, destDir)
  else
    .ok (fs, Join [o.OutputDir, o.ClusterScopedDirname])

/-- The filename the visitor function renders: the template is parsed,
executed on the template data, and an empty result is an error. -/
def renderFileName (env : Env) (o : SplitManifestsOptions) (info : Info) :
    Except RunError String :=
  match env.parse o.FileNameTemplate with
  | .error err => .error (RunError.cantParseTemplate o.FileNameTemplate err)
  | .ok fileNameTemplate =>
    match fileNameTemplate (mkTemplateData env info) with
    | .error err => .error (RunError.cantExecuteTemplate err)
    | .ok fileName =>
      if fileName = "" then .error RunError.emptyFilename
      else .ok fileName

/-- The write at the end of the visitor function. -/
def writeObject (fs : FS) (destDir fileName objBytes : String) : FS × Option RunError :=
  let filePath := Join [destDir, fileName]
  match WriteFile fs filePath objBytes with
  | .error err => (fs, some (RunError.cantWriteFile filePath err))
  | .ok fs1 => (fs1, none)

/-- The function `Run` passes to `Visit`: the file system before, the visited
object and the error of the visitor; it returns the file system after and the
error, if any. -/
def visitorFn (env : Env) (o : SplitManifestsOptions) (fs : FS) (info : Info)
    (err : Option ExtError) : FS × Option RunError :=
  match err with
  | some e => (fs, some (RunError.visitor e))
  | none =>
    if info.Name = "" then (fs, some RunError.nameEmpty)
    else
      match env.marshal info.Object with
      | .error e => (fs, some (RunError.cantMarshal info e))
      | .ok objBytes =>
        match makeDestDir o fs info with
        | .error e => (fs, some e)
        | .ok (fs1, destDir) =>
          match renderFileName env o info with
          | .error e => (fs1, some e)
          | .ok fileName => writeObject fs1 destDir fileName objBytes

/-- The destination directory the visitor function chooses for an object. -/
def destDirOf (o : SplitManifestsOptions) (info : Info) : String :=
  if info.Namespace ≠ "" then Join [o.OutputDir, o.NamespacedDirName, info.Namespace]
  else Join [o.OutputDir, o.ClusterScopedDirname]

/-- The path the visitor function writes an object to, when its filename
renders: `filepath.Join(destDir, fileName)`. -/
def targetPath (env : Env) (o : SplitManifestsOptions) (info : Info) : Option String :=
  match renderFileName env o info with
  | .error _ => none
  | .ok fileName => some (Join [destDirOf o info, fileName])

/-- Whether a path lies in the output tree: below one of the two scope
directories. -/
def inOutputTree (o : SplitManifestsOptions) (p : String) : Bool :=
  underDir (Join [o.OutputDir, o.ClusterScopedDirname]) p ||
    underDir (Join [o.OutputDir, o.NamespacedDirName]) p

/-- The file system only grows: a directory stays a directory and a file stays
a file, possibly with new content. -/
def FS.Grows (fs fs1 : FS) : Prop :=
  ∀ p, (fs.lookup p = some Node.dir → fs1.lookup p = some Node.dir) ∧
    (∀ c, fs.lookup p = some (Node.file c) → ∃ c1, fs1.lookup p = some (Node.file c1))

/-- What the resource visitor delivers to the visitor function. -/
structure VisitItem where
  info : Info
  err : Option ExtError
  deriving DecidableEq, Repr

/-- A run of the resource visitor: the items it delivers in order, and the
error it ends with itself, if any. -/
structure Visitor where
  items : List VisitItem
  final : Option ExtError
  deriving DecidableEq, Repr

/-- Go `Result.Visit`: the function is called on each item in order, the first
error it returns ends the visit and is returned. -/
def Visit (fn : FS → Info → Option ExtError → FS × Option RunError) :
    List VisitItem → Option ExtError → FS → FS × Option RunError
  | [], final, fs => (fs, final.map RunError.visitor)
  | it :: rest, final, fs =>
    match fn fs it.info it.err with
    | (fs1, some e) => (fs1, some e)
    | (fs1, none) => Visit fn rest final fs1

/-- Go `SplitManifestsOptions.Run`. -/
def Run (env : Env) (o : SplitManifestsOptions) (fs : FS) (r : Visitor) : FS × Option RunError :=
  match makeDirs o [o.ClusterScopedDirname, o.NamespacedDirName] fs with
  | (fs1, some e) => (fs1, some e)
  | (fs1, none) => Visit (visitorFn env o) r.items r.final fs1

/-- The `RunE` function of `NewSplitManifestsCmd`. -/
def RunE (env : Env) (o : SplitManifestsOptions) (fs : FS) (r : Visitor) : FS × Option RunError :=
  match Validate o with
  | some e => (fs, some e)
  | none =>
    match Complete o with
    | some e => (fs, some e)
    | none => Run env o fs r

/-- The libraries with the template fragment above, a serializer that returns
the document of the object, and no case mapping above ASCII. -/
def stdEnv : Env :=
  { marshal := fun obj => .ok obj.content
    parse := goTemplate
    lowerTable := fun c => c }

/-! ## Example inputs -/

/-- A file system with the working directory only. -/
def exampleFS : FS := [(".", Node.dir)]

/-- A cluster-scoped object. -/
def examplePod : Info :=
  { Source := "in.yaml", Namespace := "", Name := "foo"
    Object := { gvk := { Group := "", Version := "v1", Kind := "Pod" }, content := "doc1" } }

/-- A namespaced object. -/
def exampleDeployment : Info :=
  { Source := "in.yaml", Namespace := "ns1", Name := "bar"
    Object := { gvk := { Group := "apps", Version := "v1", Kind := "Deployment" }, content := "doc2" } }

/-- An object without a name. -/
def exampleNameless : Info :=
  { Source := "cm.yaml", Namespace := "", Name := ""
    Object := { gvk := { Group := "", Version := "v1", Kind := "ConfigMap" }, content := "doc3" } }

/-- Another object without a name, from another file and of another kind. -/
def exampleNameless2 : Info :=
  { Source := "svc.yaml", Namespace := "ns1", Name := ""
    Object := { gvk := { Group := "apps", Version := "v1beta1", Kind := "Service" }, content := "doc4" } }

/-- The default options with the given filename template. -/
def optionsWithTemplate (tmpl : String) : SplitManifestsOptions :=
  { NewSplitManifestsOptions with FileNameTemplate := tmpl }

/-- The file system after `Run` has created the two scope directories in
`exampleFS`. -/
def exampleFSDirs : FS :=
  [("namespaces", Node.dir), ("cluster-scoped", Node.dir), (".", Node.dir)]

/-- A cluster-scoped object of the given name and no kind. -/
def exampleNamed (name content : String) : Info :=
  { Source := "in.yaml", Namespace := "", Name := name
    Object := { gvk := { Group := "", Version := "v1", Kind := "" }, content := content } }

/-- The file system after `Run` has processed `examplePod` in `exampleFS`. -/
def exampleFSPod : FS :=
  ("cluster-scoped/foo.pod.yaml", Node.file "doc1") :: exampleFSDirs

/-- The libraries of `stdEnv` with a serializer that fails on the document
`doc2`. -/
def exampleEnvMarshal : Env :=
  { stdEnv with
    marshal := fun obj => if obj.content = "doc2" then .error "marshal failed" else .ok obj.content }

/-- An object in a namespace whose directory has no parent. -/
def exampleDeepNamespace : Info :=
  { Source := "in.yaml", Namespace := "a/b", Name := "baz"
    Object := { gvk := { Group := "", Version := "v1", Kind := "Pod" }, content := "doc5" } }

/-! # Theorems -/

/-! ### Splitting and joining -/

theorem splitSlash_ne_nil (x : List Char) : splitSlash x ≠ [] := by
  induction x with
  | nil => simp [splitSlash]
  | cons c cs ih =>
    unfold splitSlash
    split
    · simp
    · split <;> simp

theorem splitSlash_append (x y : List Char) :
    splitSlash (x ++ '/' :: y) = splitSlash x ++ splitSlash y := by
  induction x with
  | nil => simp [splitSlash]
  | cons c cs ih =>
    by_cases hc : c = '/'
    · simp [splitSlash, hc, ih]
    · have h1 : splitSlash (c :: (cs ++ '/' :: y))
          = match splitSlash (cs ++ '/' :: y) with
            | [] => [[c]]
            | h :: t => (c :: h) :: t := by
        rw [splitSlash]; simp [hc]
      have h2 : splitSlash (c :: cs)
          = match splitSlash cs with
            | [] => [[c]]
            | h :: t => (c :: h) :: t := by
        rw [splitSlash]; simp [hc]
      rw [List.cons_append, h1, h2, ih]
      cases hs : splitSlash cs with
      | nil => exact absurd hs (splitSlash_ne_nil cs)
      | cons h t => simp

theorem splitSlash_noSlash (c : List Char) (h : '/' ∉ c) : splitSlash c = [c] := by
  induction c with
  | nil => simp [splitSlash]
  | cons a as ih =>
    have ha : a ≠ '/' := fun e => h (by simp [e])
    have has : '/' ∉ as := fun e => h (by simp [e])
    rw [splitSlash]; simp [ha, ih has]

theorem splitSlash_joinSlash (l : List (List Char)) (hne : l ≠ [])
    (h : ∀ c ∈ l, '/' ∉ c) : splitSlash (joinSlash l) = l := by
  induction l with
  | nil => exact absurd rfl hne
  | cons c cs ih =>
    cases cs with
    | nil => simpa [joinSlash] using splitSlash_noSlash c (h c (by simp))
    | cons d ds =>
      rw [joinSlash, splitSlash_append, splitSlash_noSlash c (h c (by simp)),
        ih (by simp) (fun e he => h e (by simp [he]))]
      simp

theorem mem_splitSlash_noSlash (x : List Char) : ∀ c ∈ splitSlash x, '/' ∉ c := by
  induction x with
  | nil => simp [splitSlash]
  | cons a as ih =>
    by_cases ha : a = '/'
    · intro c hc
      simp [splitSlash, ha] at hc
      rcases hc with rfl | hc
      · simp
      · exact ih c hc
    · intro c hc
      rw [splitSlash] at hc
      simp only [ha, if_false] at hc
      cases hs : splitSlash as with
      | nil => exact absurd hs (splitSlash_ne_nil as)
      | cons h t =>
        rw [hs] at hc
        simp at hc
        rcases hc with rfl | hc
        · have := ih h (by simp [hs])
          intro hm
          simp at hm
          rcases hm with hm | hm
          · exact ha hm.symm
          · exact this hm
        · exact ih c (by simp [hs, hc])

/-! ### The cleaning loop -/

theorem cleanStep_inv (rooted : Bool) (st : Nat × List (List Char)) (c : List Char)
    (hc : '/' ∉ c) (h : CleanInv rooted st) : CleanInv rooted (cleanStep rooted st c) := by
  obtain ⟨d, out⟩ := st
  obtain ⟨h1, h2⟩ := h
  unfold cleanStep
  by_cases e1 : c = []
  · simp only [e1, if_true]; exact ⟨h1, h2⟩
  by_cases e2 : c = ['.']
  · simp only [e1, e2, if_true, if_false]; exact ⟨h1, h2⟩
  by_cases e3 : c = ['.', '.']
  · subst e3
    cases out with
    | nil =>
      cases rooted with
      | true => simpa using ⟨h1, h2⟩
      | false => simp [CleanInv]
    | cons t rest =>
      have : (if ['.', '.'] = ([] : List Char) then (d, t :: rest)
          else if ['.', '.'] = ['.'] then (d, t :: rest)
          else if ['.', '.'] = ['.', '.'] then
            match (d, t :: rest).2 with
            | _ :: rest => ((d, t :: rest).1, rest)
            | [] => if rooted = true then (d, t :: rest) else ((d, t :: rest).1 + 1, [])
          else ((d, t :: rest).1, ['.', '.'] :: (d, t :: rest).2)) = (d, rest) := by
        simp
      rw [this]
      exact ⟨h1, fun x hx => h2 x (by simp [hx])⟩
  · simp only [e1, e2, e3, if_false]
    refine ⟨h1, ?_⟩
    intro x hx
    simp at hx
    rcases hx with rfl | hx
    · exact ⟨e1, e2, e3, hc⟩
    · exact h2 x hx

theorem foldl_cleanStep_inv (rooted : Bool) (l : List (List Char)) :
    ∀ st, (∀ c ∈ l, '/' ∉ c) → CleanInv rooted st →
      CleanInv rooted (l.foldl (cleanStep rooted) st) := by
  induction l with
  | nil => intro st _ h; exact h
  | cons c cs ih =>
    intro st hl h
    simp only [List.foldl_cons]
    exact ih _ (fun x hx => hl x (by simp [hx]))
      (cleanStep_inv rooted st c (hl c (by simp)) h)

theorem foldl_cleanStep_dotdots (n : Nat) :
    ∀ k, (List.replicate n ['.', '.']).foldl (cleanStep false) (k, []) = (k + n, []) := by
  induction n with
  | zero => intro k; simp
  | succ n ih =>
    intro k
    rw [List.replicate_succ, List.foldl_cons]
    have : cleanStep false (k, []) ['.', '.'] = (k + 1, []) := by
      simp [cleanStep]
    rw [this, ih]
    congr 1
    omega

theorem foldl_cleanStep_plain (rooted : Bool) (l : List (List Char)) :
    ∀ d acc, (∀ c ∈ l, Plain c) →
      l.foldl (cleanStep rooted) (d, acc) = (d, l.reverse ++ acc) := by
  induction l with
  | nil => intro d acc _; simp
  | cons c cs ih =>
    intro d acc h
    obtain ⟨e1, e2, e3, _⟩ := h c (by simp)
    rw [List.foldl_cons]
    have : cleanStep rooted (d, acc) c = (d, c :: acc) := by
      simp [cleanStep, e1, e2, e3]
    rw [this, ih d (c :: acc) (fun x hx => h x (by simp [hx]))]
    simp

theorem joinSlash_eq_nil (l : List (List Char)) (h : ∀ c ∈ l, c ≠ [])
    (e : joinSlash l = []) : l = [] := by
  cases l with
  | nil => rfl
  | cons c cs =>
    cases cs with
    | nil => simp [joinSlash] at e; exact absurd e (h c (by simp))
    | cons d ds => simp [joinSlash] at e

theorem joinSlash_head (l : List (List Char)) (a : Char) (as : List Char)
    (cs : List (List Char)) (hl : l = (a :: as) :: cs) :
    ∃ t, joinSlash l = a :: t := by
  subst hl
  cases cs with
  | nil => exact ⟨as, by simp [joinSlash]⟩
  | cons d ds => exact ⟨as ++ '/' :: joinSlash (d :: ds), by simp [joinSlash]⟩

theorem cleanElems_noSlash (rooted : Bool) (st : Nat × List (List Char))
    (h : CleanInv rooted st) : ∀ c ∈ cleanElems st, '/' ∉ c := by
  intro c hc
  simp only [cleanElems, List.mem_append, List.mem_replicate, List.mem_reverse] at hc
  rcases hc with ⟨_, rfl⟩ | hc
  · simp
  · exact (h.2 c hc).2.2.2

theorem cleanElems_ne_nil (rooted : Bool) (st : Nat × List (List Char))
    (h : CleanInv rooted st) : ∀ c ∈ cleanElems st, c ≠ [] := by
  intro c hc
  simp only [cleanElems, List.mem_append, List.mem_replicate, List.mem_reverse] at hc
  rcases hc with ⟨_, rfl⟩ | hc
  · simp
  · exact (h.2 c hc).1

theorem foldl_cleanElems (rooted : Bool) (st : Nat × List (List Char))
    (h : CleanInv rooted st) :
    (cleanElems st).foldl (cleanStep rooted) (0, []) = st := by
  obtain ⟨d, out⟩ := st
  simp only [cleanElems, List.foldl_append]
  cases rooted with
  | true =>
    have hd : d = 0 := h.1 rfl
    subst hd
    simp only [List.replicate_zero, List.foldl_nil]
    rw [foldl_cleanStep_plain true out.reverse 0 [] (fun c hc => h.2 c (by simpa using hc))]
    simp
  | false =>
    rw [foldl_cleanStep_dotdots d 0,
      foldl_cleanStep_plain false out.reverse (0 + d) []
        (fun c hc => h.2 c (by simpa using hc))]
    simp

theorem cleanRender_head (rooted : Bool) (st : Nat × List (List Char))
    (h : CleanInv rooted st) :
    ∃ r0 rt, cleanRender rooted st = r0 :: rt ∧ decide (r0 = '/') = rooted := by
  cases rooted with
  | true => exact ⟨'/', joinSlash (cleanElems st), by simp [cleanRender, cleanElems], by simp⟩
  | false =>
    by_cases hb : joinSlash (cleanElems st) = []
    · refine ⟨'.', [], ?_, by decide⟩
      simp only [cleanElems] at hb
      simp [cleanRender, hb]
    · have hne : cleanElems st ≠ [] := by
        intro e; rw [e] at hb; exact hb rfl
      cases hl : cleanElems st with
      | nil => exact absurd hl hne
      | cons c cs =>
        have hcne : c ≠ [] := cleanElems_ne_nil false st h c (by simp [hl])
        have hcs : '/' ∉ c := cleanElems_noSlash false st h c (by simp [hl])
        cases c with
        | nil => exact absurd rfl hcne
        | cons a as =>
          obtain ⟨t, ht⟩ := joinSlash_head (cleanElems st) a as cs hl
          refine ⟨a, t, ?_, ?_⟩
          · simp only [cleanElems] at ht hb
            simp [cleanRender, hb, ht]
          · have : a ≠ '/' := fun e => hcs (by simp [e])
            simp [this]

theorem foldl_split_cleanRender (rooted : Bool) (st : Nat × List (List Char))
    (h : CleanInv rooted st) :
    (splitSlash (cleanRender rooted st)).foldl (cleanStep rooted) (0, []) = st := by
  have key := foldl_cleanElems rooted st h
  by_cases hl : cleanElems st = []
  · -- nothing was written: the text is "/" or "."
    have hj : joinSlash (List.replicate st.1 ['.', '.'] ++ st.2.reverse) = [] := by
      have : List.replicate st.1 ['.', '.'] ++ st.2.reverse = [] := hl
      rw [this]; rfl
    rw [hl] at key
    cases rooted with
    | true =>
      simp only [cleanRender, hj, if_true]
      rw [← key]
      simp [splitSlash, cleanStep]
    | false =>
      simp only [cleanRender, hj]
      rw [← key]
      simp [splitSlash, cleanStep]
  · have hs : splitSlash (joinSlash (cleanElems st)) = cleanElems st :=
      splitSlash_joinSlash _ hl (cleanElems_noSlash rooted st h)
    have hjne : joinSlash (cleanElems st) ≠ [] := fun e =>
      hl (joinSlash_eq_nil _ (cleanElems_ne_nil rooted st h) e)
    cases rooted with
    | true =>
      have : cleanRender true st = [] ++ '/' :: joinSlash (cleanElems st) := by
        simp [cleanRender, cleanElems]
      rw [this, splitSlash_append, hs, List.foldl_append]
      have h0 : (splitSlash []).foldl (cleanStep true) (0, []) = (0, []) := by
        simp [splitSlash, cleanStep]
      rw [h0, key]
    | false =>
      have : cleanRender false st = joinSlash (cleanElems st) := by
        simp only [cleanElems] at hjne
        simp [cleanRender, cleanElems, hjne]
      rw [this, hs, key]

theorem cleanChars_eq (a : Char) (as : List Char) :
    cleanChars (a :: as) = cleanRender (decide (a = '/'))
      ((splitSlash (a :: as)).foldl (cleanStep (decide (a = '/'))) (0, [])) := rfl

/-- Cleaning an already cleaned prefix changes nothing: the lexical processing
of `x/c` can be resumed from the cleaned form of `x`. -/
theorem cleanChars_clean_append (x c : List Char) (hx : x ≠ []) :
    cleanChars (cleanChars x ++ '/' :: c) = cleanChars (x ++ '/' :: c) := by
  cases x with
  | nil => exact absurd rfl hx
  | cons a as =>
    have hinv : CleanInv (decide (a = '/'))
        ((splitSlash (a :: as)).foldl (cleanStep (decide (a = '/'))) (0, [])) :=
      foldl_cleanStep_inv _ _ _ (mem_splitSlash_noSlash _) ⟨fun _ => rfl, by simp⟩
    obtain ⟨r0, rt, hr, hroot⟩ := cleanRender_head _ _ hinv
    have hfold := foldl_split_cleanRender _ _ hinv
    rw [cleanChars_eq a as, hr, List.cons_append, List.cons_append, cleanChars_eq,
      cleanChars_eq, hroot, ← List.cons_append, ← List.cons_append, splitSlash_append,
      splitSlash_append, List.foldl_append, List.foldl_append, ← hr, hfold]

theorem cleanChars_ne_nil (x : List Char) : cleanChars x ≠ [] := by
  cases x with
  | nil => simp [cleanChars]
  | cons a as =>
    have hinv : CleanInv (decide (a = '/'))
        ((splitSlash (a :: as)).foldl (cleanStep (decide (a = '/'))) (0, [])) :=
      foldl_cleanStep_inv _ _ _ (mem_splitSlash_noSlash _) ⟨fun _ => rfl, by simp⟩
    obtain ⟨r0, rt, hr, _⟩ := cleanRender_head _ _ hinv
    rw [cleanChars_eq, hr]; simp

/-! ### `filepath.Join` -/

theorem Clean_ne_empty (x : String) : Clean x ≠ "" := by
  intro h
  have h2 : (Clean x).data = [] := by rw [h]
  exact cleanChars_ne_nil x.data h2

theorem Clean_clean_append (x c : String) (hx : x ≠ "") :
    Clean (Clean x ++ "/" ++ c) = Clean (x ++ "/" ++ c) := by
  have hx2 : x.data ≠ [] := by
    intro h
    apply hx
    exact String.ext h
  have h := cleanChars_clean_append x.data c.data hx2
  simp only [Clean, String.data_append]
  congr 1
  simpa using h

theorem stringsJoin_ne_empty (e : String) (es : List String) (he : e ≠ "") :
    stringsJoin (e :: es) "/" ≠ "" := by
  have he2 : e.data ≠ [] := fun h => he (String.ext h)
  intro h
  have h2 : (stringsJoin (e :: es) "/").data = [] := by rw [h]
  cases es with
  | nil => exact he2 (by simpa [stringsJoin] using h2)
  | cons d ds =>
    simp [stringsJoin, String.data_append] at h2

theorem stringsJoin_snoc (e : String) (es : List String) (f : String) :
    stringsJoin (e :: es ++ [f]) "/" = stringsJoin (e :: es) "/" ++ "/" ++ f := by
  induction es generalizing e with
  | nil => simp [stringsJoin]
  | cons d ds ih =>
    have := ih d
    simp only [List.cons_append] at this ⊢
    rw [stringsJoin, this, stringsJoin]
    simp [String.append_assoc]

/-- Joining in two steps gives the path of joining at once:
`Join(Join(l...), f) = Join(l..., f)`. -/
theorem Join_snoc (l : List String) (f : String) : Join [Join l, f] = Join (l ++ [f]) := by
  induction l with
  | nil => simp [Join]
  | cons e es ih =>
    by_cases he : e = ""
    · simpa [Join, he] using ih
    · have h1 : Join (e :: es) = Clean (stringsJoin (e :: es) "/") := by
        simp [Join, he]
      have h2 : Join (e :: es ++ [f]) = Clean (stringsJoin (e :: es ++ [f]) "/") := by
        simp [Join, he]
      rw [h1, h2, stringsJoin_snoc]
      have h3 : Join [Clean (stringsJoin (e :: es) "/"), f]
          = Clean (Clean (stringsJoin (e :: es) "/") ++ "/" ++ f) := by
        simp [Join, Clean_ne_empty, stringsJoin]
      rw [h3, Clean_clean_append _ _ (stringsJoin_ne_empty e es he)]

/-! ### The file system -/

theorem FS.lookup_eq_none (fs : FS) (p : String) :
    fs.lookup p = none ↔ ∀ e ∈ fs, e.1 ≠ p := by
  induction fs with
  | nil => simp [FS.lookup]
  | cons e rest ih =>
    obtain ⟨q, n⟩ := e
    by_cases h : q = p
    · simp [FS.lookup, h]
    · simp [FS.lookup, h, ih]

theorem FS.lookup_filter_ne (fs : FS) (p q : String) (h : q ≠ p) :
    FS.lookup (fs.filter (fun e => decide (e.1 ≠ p))) q = FS.lookup fs q := by
  induction fs with
  | nil => rfl
  | cons e rest ih =>
    obtain ⟨r, n⟩ := e
    by_cases hr : r = p
    · subst hr
      have hrq : r ≠ q := fun e => h e.symm
      rw [List.filter_cons_of_neg (by simp), ih]
      simp [FS.lookup, hrq]
    · rw [List.filter_cons_of_pos (by simp [hr])]
      simp only [FS.lookup, ih]

theorem FS.lookup_set_self (fs : FS) (p : String) (n : Node) :
    (fs.set p n).lookup p = some n := by
  simp [FS.set, FS.lookup]

theorem FS.lookup_set_ne (fs : FS) (p q : String) (n : Node) (h : q ≠ p) :
    (fs.set p n).lookup q = fs.lookup q := by
  have hpq : p ≠ q := fun e => h e.symm
  simp only [FS.set, FS.lookup, hpq, if_false]
  exact FS.lookup_filter_ne fs p q h

theorem FS.filter_ne_of_lookup_none (fs : FS) (p : String) (h : fs.lookup p = none) :
    fs.filter (fun e => decide (e.1 ≠ p)) = fs := by
  rw [List.filter_eq_self]
  intro e he
  simpa using (FS.lookup_eq_none fs p).1 h e he

theorem FS.mem_of_lookup (fs : FS) (p : String) (n : Node) (h : fs.lookup p = some n) :
    (p, n) ∈ fs := by
  induction fs with
  | nil => simp [FS.lookup] at h
  | cons e rest ih =>
    obtain ⟨q, m⟩ := e
    by_cases hq : q = p
    · simp [FS.lookup, hq] at h
      simp [hq, h]
    · simp [FS.lookup, hq] at h
      simp [ih h]

theorem Mkdir_ok (fs fs1 : FS) (name : String) (h : Mkdir fs name = .ok fs1) :
    fs.lookup name = none ∧ fs1 = fs.set name Node.dir := by
  unfold Mkdir at h
  cases h1 : fs.lookup name with
  | some n => simp [h1] at h
  | none =>
    simp only [h1] at h
    cases h2 : fs.lookup (Dir name) with
    | none => simp [h2] at h
    | some n =>
      cases n with
      | dir => simp [h2] at h; exact ⟨rfl, h.symm⟩
      | file c => simp [h2] at h

theorem Mkdir_exists (fs : FS) (name : String) (h : fs.lookup name ≠ none) :
    Mkdir fs name = .error Errno.EEXIST := by
  unfold Mkdir
  cases h1 : fs.lookup name with
  | some n => rfl
  | none => exact absurd h1 h

theorem WriteFile_ok (fs fs1 : FS) (name data : String)
    (h : WriteFile fs name data = .ok fs1) :
    fs.lookup name ≠ some Node.dir ∧ fs1 = fs.set name (Node.file data) := by
  unfold WriteFile at h
  cases h1 : fs.lookup name with
  | some n =>
    cases n with
    | dir => simp [h1] at h
    | file c => simp [h1] at h; exact ⟨by simp, h.symm⟩
  | none =>
    simp only [h1] at h
    cases h2 : fs.lookup (Dir name) with
    | none => simp [h2] at h
    | some n =>
      cases n with
      | dir => simp [h2] at h; exact ⟨by simp, h.symm⟩
      | file c => simp [h2] at h

theorem WriteFile_overwrite (fs : FS) (name data c : String)
    (h : fs.lookup name = some (Node.file c)) :
    WriteFile fs name data = .ok (fs.set name (Node.file data)) := by
  simp [WriteFile, h]

theorem FS.Grows.refl (fs : FS) : FS.Grows fs fs :=
  fun _ => ⟨fun h => h, fun c h => ⟨c, h⟩⟩

theorem FS.Grows.trans {a b c : FS} (h1 : FS.Grows a b) (h2 : FS.Grows b c) : FS.Grows a c := by
  intro p
  refine ⟨fun h => (h2 p).1 ((h1 p).1 h), fun x h => ?_⟩
  obtain ⟨y, hy⟩ := (h1 p).2 x h
  exact (h2 p).2 y hy

theorem Mkdir_grows (fs fs1 : FS) (name : String) (h : Mkdir fs name = .ok fs1) :
    FS.Grows fs fs1 := by
  obtain ⟨hn, rfl⟩ := Mkdir_ok fs fs1 name h
  intro p
  by_cases hp : p = name
  · subst hp; simp [hn]
  · rw [FS.lookup_set_ne fs name p _ hp]; exact ⟨fun h => h, fun c h => ⟨c, h⟩⟩

theorem WriteFile_grows (fs fs1 : FS) (name data : String)
    (h : WriteFile fs name data = .ok fs1) : FS.Grows fs fs1 := by
  obtain ⟨hn, rfl⟩ := WriteFile_ok fs fs1 name data h
  intro p
  by_cases hp : p = name
  · subst hp
    refine ⟨fun hd => absurd hd hn, fun c _ => ⟨data, FS.lookup_set_self fs p _⟩⟩
  · rw [FS.lookup_set_ne fs name p _ hp]; exact ⟨fun h => h, fun c h => ⟨c, h⟩⟩

/-- Creating a directory keeps every existing entry as it is. -/
theorem Mkdir_keeps (fs fs1 : FS) (name : String) (h : Mkdir fs name = .ok fs1)
    (p : String) (n : Node) (hp : fs.lookup p = some n) : fs1.lookup p = some n := by
  obtain ⟨hn, rfl⟩ := Mkdir_ok fs fs1 name h
  have : p ≠ name := by
    intro e; subst e; rw [hn] at hp; cases hp
  rw [FS.lookup_set_ne fs name p _ this]; exact hp

theorem FS.files_set_dir (P : String → Bool) (fs : FS) (d : String)
    (h : fs.lookup d = none) : FS.files P (fs.set d Node.dir) = FS.files P fs := by
  unfold FS.files FS.set
  rw [FS.filter_ne_of_lookup_none fs d h]
  simp [List.filter_cons, Node.isFile]

theorem FS.mem_files (P : String → Bool) (fs : FS) (q : String) :
    q ∈ FS.files P fs ↔ P q = true ∧ ∃ c, (q, Node.file c) ∈ fs := by
  simp only [FS.files, List.mem_map, List.mem_filter, Bool.and_eq_true]
  constructor
  · rintro ⟨⟨r, n⟩, ⟨hm, hf, hP⟩, rfl⟩
    cases n with
    | dir => simp [Node.isFile] at hf
    | file c => exact ⟨hP, c, hm⟩
  · rintro ⟨hP, c, hm⟩
    exact ⟨(q, Node.file c), ⟨hm, rfl, hP⟩, rfl⟩

theorem FS.files_set_file_length (P : String → Bool) (fs : FS) (p c : String)
    (hP : P p = true) (hp : p ∉ FS.files P fs) :
    (FS.files P (fs.set p (Node.file c))).length = (FS.files P fs).length + 1 := by
  have hfil : (fs.filter (fun e => decide (e.1 ≠ p))).filter (fun e => e.2.isFile && P e.1)
      = fs.filter (fun e => e.2.isFile && P e.1) := by
    rw [List.filter_filter]
    apply List.filter_congr
    intro e he
    obtain ⟨r, n⟩ := e
    by_cases hr : r = p
    · subst hr
      cases n with
      | dir => simp [Node.isFile]
      | file x =>
        exact absurd ((FS.mem_files P fs r).2 ⟨hP, x, he⟩) hp
    · simp [hr]
  unfold FS.files FS.set
  rw [List.filter_cons_of_pos (by simp [Node.isFile, hP]), hfil]
  simp

theorem FS.mem_files_set_file (P : String → Bool) (fs : FS) (p c q : String)
    (hq : q ≠ p) : q ∈ FS.files P (fs.set p (Node.file c)) ↔ q ∈ FS.files P fs := by
  have hpq : p ≠ q := fun e => hq e.symm
  rw [FS.mem_files, FS.mem_files]
  simp [FS.set, hq, hpq]

/-! ### The visit -/

theorem Visit_append (fn : FS → Info → Option ExtError → FS × Option RunError)
    (pre rest : List VisitItem) (final : Option ExtError) (fs fs0 : FS)
    (h : Visit fn pre none fs = (fs0, none)) :
    Visit fn (pre ++ rest) final fs = Visit fn rest final fs0 := by
  induction pre generalizing fs with
  | nil =>
    simp [Visit] at h
    subst h; rfl
  | cons it more ih =>
    simp only [Visit, List.cons_append] at h ⊢
    cases hfn : fn fs it.info it.err with
    | mk fs1 oe =>
      cases oe with
      | some e => simp [hfn] at h
      | none =>
        simp only [hfn] at h ⊢
        exact ih fs1 h

/-- A run over more items continues from where the run over the first items
ended without error. -/
theorem Run_append (env : Env) (o : SplitManifestsOptions) (fs fs0 : FS)
    (pre rest : List VisitItem) (final : Option ExtError)
    (h : Run env o fs ⟨pre, none⟩ = (fs0, none)) :
    Run env o fs ⟨pre ++ rest, final⟩ = Visit (visitorFn env o) rest final fs0 := by
  unfold Run at h ⊢
  cases hm : makeDirs o [o.ClusterScopedDirname, o.NamespacedDirName] fs with
  | mk fs1 oe =>
    cases oe with
    | some e => simp [hm] at h
    | none =>
      simp only [hm] at h ⊢
      exact Visit_append _ pre rest final fs1 fs0 h

theorem Visit_cons_error (fn : FS → Info → Option ExtError → FS × Option RunError)
    (it : VisitItem) (rest : List VisitItem) (final : Option ExtError) (fs fs1 : FS)
    (e : RunError) (h : fn fs it.info it.err = (fs1, some e)) :
    Visit fn (it :: rest) final fs = (fs1, some e) := by
  simp [Visit, h]

theorem Visit_cons_ok (fn : FS → Info → Option ExtError → FS × Option RunError)
    (it : VisitItem) (rest : List VisitItem) (final : Option ExtError) (fs fs1 : FS)
    (h : fn fs it.info it.err = (fs1, none)) :
    Visit fn (it :: rest) final fs = Visit fn rest final fs1 := by
  simp [Visit, h]

/-- The destination directory step returns the directory `destDirOf` names. -/
theorem makeDestDir_ok (o : SplitManifestsOptions) (fs fs1 : FS) (info : Info)
    (destDir : String) (h : makeDestDir o fs info = .ok (fs1, destDir)) :
    destDir = destDirOf o info ∧
      (fs1 = fs ∨ (fs.lookup destDir = none ∧ fs1 = fs.set destDir Node.dir)) ∧
      (info.Namespace ≠ "" → fs1.lookup destDir ≠ none) := by
  unfold makeDestDir at h
  by_cases hns : info.Namespace = ""
  · simp [hns] at h
    obtain ⟨h1, h2⟩ := h
    subst h1
    exact ⟨by simp [destDirOf, hns, h2.symm], Or.inl rfl, fun hc => absurd hns hc⟩
  · simp only [ne_eq, hns, not_false_eq_true, if_true] at h
    cases hmk : Mkdir fs (Join [o.OutputDir, o.NamespacedDirName, info.Namespace]) with
    | error err =>
      simp only [hmk] at h
      cases err with
      | EEXIST =>
        simp [IsExist] at h
        obtain ⟨h1, h2⟩ := h
        subst h1
        subst h2
        refine ⟨by simp [destDirOf, hns], Or.inl rfl, fun _ => ?_⟩
        intro hnone
        unfold Mkdir at hmk
        rw [hnone] at hmk
        simp only at hmk
        cases h2 : FS.lookup fs (Dir (Join [o.OutputDir, o.NamespacedDirName, info.Namespace])) with
        | none => simp [h2] at hmk
        | some n =>
          cases n with
          | dir => simp [h2] at hmk
          | file c => simp [h2] at hmk
      | ENOENT => simp [IsExist] at h
      | ENOTDIR => simp [IsExist] at h
      | EISDIR => simp [IsExist] at h
    | ok fs2 =>
      simp only [hmk] at h
      simp at h
      obtain ⟨h1, h2⟩ := h
      subst h1
      subst h2
      obtain ⟨hn, hs⟩ := Mkdir_ok _ _ _ hmk
      refine ⟨by simp [destDirOf, hns], Or.inr ⟨hn, hs⟩, fun _ => ?_⟩
      rw [hs, FS.lookup_set_self]; simp

/-- The destination directory step keeps every existing entry as it is. -/
theorem makeDestDir_keeps (o : SplitManifestsOptions) (fs fs1 : FS) (info : Info)
    (destDir : String) (h : makeDestDir o fs info = .ok (fs1, destDir))
    (p : String) (n : Node) (hp : fs.lookup p = some n) : fs1.lookup p = some n := by
  obtain ⟨_, h2, _⟩ := makeDestDir_ok o fs fs1 info destDir h
  rcases h2 with rfl | ⟨hn, rfl⟩
  · exact hp
  · have : p ≠ destDir := by
      intro e; subst e; rw [hn] at hp; cases hp
    rw [FS.lookup_set_ne _ _ _ _ this]; exact hp

/-- The visitor function when every step before the write succeeds. -/
theorem visitorFn_reaches_write (env : Env) (o : SplitManifestsOptions) (fs fs1 : FS)
    (info : Info) (objBytes destDir fileName : String)
    (hname : info.Name ≠ "") (hm : env.marshal info.Object = .ok objBytes)
    (hd : makeDestDir o fs info = .ok (fs1, destDir))
    (hr : renderFileName env o info = .ok fileName) :
    visitorFn env o fs info none = writeObject fs1 destDir fileName objBytes := by
  simp [visitorFn, hname, hm, hd, hr]

/-- A failing visitor function keeps every existing entry as it is. -/
theorem visitorFn_error_keeps (env : Env) (o : SplitManifestsOptions) (fs fs2 : FS)
    (info : Info) (err : Option ExtError) (e : RunError)
    (h : visitorFn env o fs info err = (fs2, some e))
    (p : String) (n : Node) (hp : fs.lookup p = some n) : fs2.lookup p = some n := by
  unfold visitorFn at h
  cases err with
  | some x => simp at h; rw [← h.1]; exact hp
  | none =>
    simp only at h
    by_cases hname : info.Name = ""
    · simp [hname] at h; rw [← h.1]; exact hp
    · simp only [hname, if_false] at h
      cases hm : env.marshal info.Object with
      | error x => simp [hm] at h; rw [← h.1]; exact hp
      | ok objBytes =>
        simp only [hm] at h
        cases hd : makeDestDir o fs info with
        | error x => simp [hd] at h; rw [← h.1]; exact hp
        | ok pr =>
          obtain ⟨fs1, destDir⟩ := pr
          simp only [hd] at h
          have hk := makeDestDir_keeps o fs fs1 info destDir hd p n hp
          cases hr : renderFileName env o info with
          | error x => simp [hr] at h; rw [← h.1]; exact hk
          | ok fileName =>
            simp only [hr, writeObject] at h
            cases hw : WriteFile fs1 (Join [destDir, fileName]) objBytes with
            | error x => simp [hw] at h; rw [← h.1]; exact hk
            | ok fs3 => simp [hw] at h

/-! ### A plain filename in a cleaned directory -/

theorem joinSlash_snoc (l : List (List Char)) (f : List Char) (hl : l ≠ []) :
    joinSlash (l ++ [f]) = joinSlash l ++ '/' :: f := by
  induction l with
  | nil => exact absurd rfl hl
  | cons c cs ih =>
    cases cs with
    | nil => simp [joinSlash]
    | cons d ds =>
      have := ih (by simp)
      simp only [List.cons_append] at this ⊢
      rw [joinSlash, this, joinSlash]
      simp

theorem cleanElems_push (d : Nat) (st : List (List Char)) (f : List Char) :
    cleanElems (d, f :: st) = cleanElems (d, st) ++ [f] := by
  simp [cleanElems]

theorem cleanChars_append (a : Char) (as c : List Char) :
    cleanChars ((a :: as) ++ '/' :: c) = cleanRender (decide (a = '/'))
      ((splitSlash c).foldl (cleanStep (decide (a = '/')))
        ((splitSlash (a :: as)).foldl (cleanStep (decide (a = '/'))) (0, []))) := by
  rw [List.cons_append, cleanChars_eq, ← List.cons_append, splitSlash_append, List.foldl_append]

theorem cleanStep_plain (rooted : Bool) (st : Nat × List (List Char)) (f : List Char)
    (hf : Plain f) : cleanStep rooted st f = (st.1, f :: st.2) := by
  obtain ⟨e1, e2, e3, _⟩ := hf
  simp [cleanStep, e1, e2, e3]

theorem cleanRender_eq (rooted : Bool) (st : Nat × List (List Char)) :
    cleanRender rooted st =
      if rooted then '/' :: joinSlash (cleanElems st)
      else if joinSlash (cleanElems st) = [] then ['.'] else joinSlash (cleanElems st) := rfl

/-- The cleaned form of `x/f` for a plain element `f`, from the cleaned form of
`x`: the element is appended after a separator, unless the cleaned form of `x`
is the root or the current directory. -/
theorem cleanChars_plain (x f : List Char) (hx : x ≠ []) (hf : Plain f) :
    (cleanChars x = ['/'] ∧ cleanChars (x ++ '/' :: f) = '/' :: f) ∨
      (cleanChars x = ['.'] ∧ cleanChars (x ++ '/' :: f) = f) ∨
      (cleanChars x ≠ ['/'] ∧ cleanChars x ≠ ['.'] ∧
        cleanChars (x ++ '/' :: f) = cleanChars x ++ '/' :: f) := by
  cases x with
  | nil => exact absurd rfl hx
  | cons a as =>
    have hinv : CleanInv (decide (a = '/'))
        ((splitSlash (a :: as)).foldl (cleanStep (decide (a = '/'))) (0, [])) :=
      foldl_cleanStep_inv _ _ _ (mem_splitSlash_noSlash _) ⟨fun _ => rfl, by simp⟩
    rw [cleanChars_append, splitSlash_noSlash f hf.2.2.2, cleanChars_eq]
    simp only [List.foldl_cons, List.foldl_nil]
    rw [cleanStep_plain _ _ f hf]
    generalize (splitSlash (a :: as)).foldl (cleanStep (decide (a = '/'))) (0, []) = st at hinv
    obtain ⟨d, out⟩ := st
    have hne := cleanElems_ne_nil _ _ hinv
    have hns := cleanElems_noSlash _ _ hinv
    have hplain : ∀ c ∈ cleanElems (d, out), c ≠ ['.'] := by
      intro c hc
      simp only [cleanElems, List.mem_append, List.mem_replicate, List.mem_reverse] at hc
      rcases hc with ⟨_, rfl⟩ | hc
      · simp
      · exact (hinv.2 c hc).2.1
    rw [cleanRender_eq, cleanRender_eq]
    show (_ ∧ (if decide (a = '/') = true then '/' :: joinSlash (cleanElems (d, f :: out))
        else if joinSlash (cleanElems (d, f :: out)) = [] then ['.']
          else joinSlash (cleanElems (d, f :: out))) = _) ∨ _
    rw [cleanElems_push d out f]
    generalize cleanElems (d, out) = E at hne hns hplain
    by_cases hE : E = []
    · subst hE
      have h1 : joinSlash ([] ++ [f]) = f := rfl
      have h2 : joinSlash ([] : List (List Char)) = [] := rfl
      rw [h1, h2]
      cases hr : decide (a = '/') with
      | true => left; simp
      | false => right; left; simp [hf.1]
    · have hjne : joinSlash E ≠ [] := fun e => hE (joinSlash_eq_nil _ hne e)
      rw [joinSlash_snoc E f hE]
      right; right
      cases hr : decide (a = '/') with
      | true =>
        refine ⟨?_, by simp, by simp⟩
        intro h
        simp at h
        exact hjne h
      | false =>
        have hjne2 : joinSlash E ++ '/' :: f ≠ [] := by simp
        simp only [Bool.false_eq_true, if_false, hjne, hjne2]
        refine ⟨?_, ?_, trivial⟩
        · intro h
          cases E with
          | nil => exact hE rfl
          | cons c cs =>
            have hcs : '/' ∉ c := hns c (by simp)
            have hcne : c ≠ [] := hne c (by simp)
            cases c with
            | nil => exact absurd rfl hcne
            | cons c0 ct =>
              obtain ⟨t, ht⟩ := joinSlash_head ((c0 :: ct) :: cs) c0 ct cs rfl
              rw [ht] at h
              simp at h
              exact hcs (by simp [h.1])
        · intro h
          cases E with
          | nil => exact hE rfl
          | cons c cs =>
            cases cs with
            | nil =>
              simp [joinSlash] at h
              exact hplain c (by simp) h
            | cons c2 cs2 =>
              have hc : c ≠ [] := hne c (by simp)
              cases c with
              | nil => exact absurd rfl hc
              | cons c0 ct =>
                simp [joinSlash] at h

theorem dropWhile_notSlash (g r : List Char) (hg : '/' ∉ g) :
    (g ++ '/' :: r).dropWhile (fun c => decide (c ≠ '/')) = '/' :: r := by
  induction g with
  | nil => simp [List.dropWhile]
  | cons c cs ih =>
    have hc : c ≠ '/' := fun e => hg (by simp [e])
    have hcs : '/' ∉ cs := fun e => hg (by simp [e])
    simp [List.dropWhile, hc]
    simpa using ih hcs

theorem dirPart_append (p f : List Char) (hf : '/' ∉ f) :
    dirPart (p ++ '/' :: f) = p ++ ['/'] := by
  unfold dirPart
  have h1 : (p ++ '/' :: f).reverse = f.reverse ++ '/' :: p.reverse := by simp
  rw [h1, dropWhile_notSlash f.reverse p.reverse (by simpa using hf)]
  simp

theorem dirPart_noSlash (f : List Char) (hf : '/' ∉ f) : dirPart f = [] := by
  unfold dirPart
  have : f.reverse.dropWhile (fun c => decide (c ≠ '/')) = [] := by
    rw [List.dropWhile_eq_nil_iff]
    intro c hc
    have : c ≠ '/' := fun e => hf (by rw [← e]; simpa using hc)
    simp [this]
  rw [this]; rfl

/-- The directory of the cleaned `x/f`, for a plain element `f`, is the cleaned
form of `x`. -/
theorem cleanChars_dirPart_plain (x f : List Char) (hx : x ≠ []) (hf : Plain f) :
    cleanChars (dirPart (cleanChars (x ++ '/' :: f))) = cleanChars x := by
  rcases cleanChars_plain x f hx hf with ⟨h1, h2⟩ | ⟨h1, h2⟩ | ⟨_, _, h3⟩
  · rw [h2, h1]
    have : dirPart ('/' :: f) = [] ++ ['/'] := dirPart_append [] f hf.2.2.2
    rw [this]
    decide
  · rw [h2, h1, dirPart_noSlash f hf.2.2.2]
    decide
  · rw [h3, dirPart_append _ f hf.2.2.2]
    have h4 : cleanChars x ++ ['/'] = cleanChars x ++ '/' :: [] := rfl
    rw [h4, cleanChars_clean_append x [] hx]
    cases x with
    | nil => exact absurd rfl hx
    | cons a as =>
      rw [cleanChars_append, cleanChars_eq]
      simp [splitSlash, cleanStep]

theorem Join_eq_Clean (l : List String) (h : Join l ≠ "") :
    ∃ x, x ≠ "" ∧ Join l = Clean x := by
  induction l with
  | nil => exact absurd rfl h
  | cons e es ih =>
    by_cases he : e = ""
    · have : Join (e :: es) = Join es := by simp [Join, he]
      rw [this] at h ⊢
      exact ih h
    · exact ⟨stringsJoin (e :: es) "/", stringsJoin_ne_empty e es he, by simp [Join, he]⟩

/-- A plain filename joined to a directory that `filepath.Join` returned: the
result is an entry of that directory, and it is the directory, a separator and
the filename unless the directory is the root or the current directory. -/
theorem Join_plain (l : List String) (f : String) (hl : Join l ≠ "") (hf : Plain f.data) :
    Dir (Join [Join l, f]) = Join l ∧
      (Join l ≠ "." → Join l ≠ "/" →
        Join [Join l, f] = Join l ++ "/" ++ f ∧ underDir (Join l) (Join [Join l, f]) = true) := by
  obtain ⟨x, hx, hxe⟩ := Join_eq_Clean l hl
  have hx2 : x.data ≠ [] := fun h => hx (String.ext h)
  have hj : Join [Join l, f] = Clean (x ++ "/" ++ f) := by
    rw [hxe]
    have : Join [Clean x, f] = Clean (Clean x ++ "/" ++ f) := by
      simp [Join, Clean_ne_empty, stringsJoin]
    rw [this, Clean_clean_append x f hx]
  have hdata : (Clean (x ++ "/" ++ f)).data = cleanChars (x.data ++ '/' :: f.data) := by
    simp [Clean, String.data_append]
  constructor
  · rw [hj, hxe]
    apply String.ext
    show cleanChars (dirPart (Clean (x ++ "/" ++ f)).data) = cleanChars x.data
    rw [hdata]
    exact cleanChars_dirPart_plain x.data f.data hx2 hf
  · intro hdot hroot
    have hform : Join [Join l, f] = Join l ++ "/" ++ f := by
      rw [hj, hxe]
      apply String.ext
      rw [hdata]
      rcases cleanChars_plain x.data f.data hx2 hf with ⟨h1, _⟩ | ⟨h1, _⟩ | ⟨_, _, h3⟩
      · exfalso
        apply hroot
        rw [hxe]
        exact String.ext h1
      · exfalso
        apply hdot
        rw [hxe]
        exact String.ext h1
      · rw [h3]
        simp [Clean, String.data_append]
    refine ⟨hform, ?_⟩
    rw [hform]
    simp [underDir, String.data_append]

/-! ## The claims -/

/-- The path written for an object, in the one-call form of `filepath.Join`. -/
theorem Join_destDirOf (o : SplitManifestsOptions) (info : Info) (fileName : String) :
    Join [destDirOf o info, fileName] =
      if info.Namespace = "" then Join [o.OutputDir, o.ClusterScopedDirname, fileName]
      else Join [o.OutputDir, o.NamespacedDirName, info.Namespace, fileName] := by
  by_cases hns : info.Namespace = ""
  · simp only [destDirOf, hns, ne_eq, not_true_eq_false, if_false, if_true]
    exact Join_snoc [o.OutputDir, o.ClusterScopedDirname] fileName
  · simp only [destDirOf, hns, ne_eq, not_false_eq_true, if_true, if_false]
    exact Join_snoc [o.OutputDir, o.NamespacedDirName, info.Namespace] fileName

/-- C1, as stated, fails: the cluster-scoped object named `../c` has a
non-empty name and its write is reached, and the file is written at the path
`filepath.Join` gives, which is `c.yaml`, outside the cluster-scoped
directory. -/
theorem C1_counterexample :
    (exampleNamed "../c" "doc3").Name ≠ "" ∧
      (exampleNamed "../c" "doc3").Namespace = "" ∧
      renderFileName stdEnv NewSplitManifestsOptions (exampleNamed "../c" "doc3") =
        .ok "../c.yaml" ∧
      Run stdEnv NewSplitManifestsOptions exampleFS
          ⟨[⟨exampleNamed "../c" "doc3", none⟩], none⟩ =
        (("c.yaml", Node.file "doc3") :: exampleFSDirs, none) ∧
      Join [NewSplitManifestsOptions.OutputDir, NewSplitManifestsOptions.ClusterScopedDirname,
        "../c.yaml"] = "c.yaml" ∧
      underDir (Join [NewSplitManifestsOptions.OutputDir,
        NewSplitManifestsOptions.ClusterScopedDirname]) "c.yaml" = false ∧
      Dir "c.yaml" ≠ Join [NewSplitManifestsOptions.OutputDir,
        NewSplitManifestsOptions.ClusterScopedDirname] := by
  decide

/-- C1, amended: in every run of `Run` that reaches the write for an object
with a non-empty name (the objects before it are processed without error, and
its serialization, destination directory and filename succeed), the only thing
left to do for the object is `os.WriteFile` at
`filepath.Join(OutputDir, ClusterScopedDirname, fileName)` when the namespace
is empty and at `filepath.Join(OutputDir, NamespacedDirName, namespace,
fileName)` when it is not: a write error ends the run with that path in the
error, a successful write leaves the serialized object at that path and the
run goes on to the later objects.  The choice between the two paths is made by
the emptiness of the namespace alone.  When the rendered filename is a single
path element (not empty, not `.` or `..`, without a separator) and the
destination directory, `filepath.Join(OutputDir, ClusterScopedDirname)` or
`filepath.Join(OutputDir, NamespacedDirName, namespace)`, is not the empty
path, the written path is an entry of that directory: its `filepath.Dir` is
the directory, and unless the directory is `.` or `/` the path is the
directory, a separator and the filename, so it lies under the directory. -/
theorem C1_write_location (env : Env) (o : SplitManifestsOptions) (fs fs0 fs1 : FS)
    (pre post : List VisitItem) (final : Option ExtError) (info : Info)
    (objBytes destDir fileName : String)
    (hpre : Run env o fs ⟨pre, none⟩ = (fs0, none))
    (hname : info.Name ≠ "")
    (hm : env.marshal info.Object = .ok objBytes)
    (hd : makeDestDir o fs0 info = .ok (fs1, destDir))
    (hr : renderFileName env o info = .ok fileName) :
    (∀ err,
      WriteFile fs1
        (if info.Namespace = "" then Join [o.OutputDir, o.ClusterScopedDirname, fileName]
         else Join [o.OutputDir, o.NamespacedDirName, info.Namespace, fileName])
        objBytes = .error err →
      Run env o fs ⟨pre ++ ⟨info, none⟩ :: post, final⟩ =
        (fs1, some (RunError.cantWriteFile
          (if info.Namespace = "" then Join [o.OutputDir, o.ClusterScopedDirname, fileName]
           else Join [o.OutputDir, o.NamespacedDirName, info.Namespace, fileName]) err))) ∧
    (∀ fs2,
      WriteFile fs1
        (if info.Namespace = "" then Join [o.OutputDir, o.ClusterScopedDirname, fileName]
         else Join [o.OutputDir, o.NamespacedDirName, info.Namespace, fileName])
        objBytes = .ok fs2 →
      Run env o fs ⟨pre ++ ⟨info, none⟩ :: post, final⟩ =
          Visit (visitorFn env o) post final fs2 ∧
        fs2 = fs1.set
          (if info.Namespace = "" then Join [o.OutputDir, o.ClusterScopedDirname, fileName]
           else Join [o.OutputDir, o.NamespacedDirName, info.Namespace, fileName])
          (Node.file objBytes) ∧
        fs2.lookup
          (if info.Namespace = "" then Join [o.OutputDir, o.ClusterScopedDirname, fileName]
           else Join [o.OutputDir, o.NamespacedDirName, info.Namespace, fileName])
          = some (Node.file objBytes)) ∧
    destDir =
      (if info.Namespace = "" then Join [o.OutputDir, o.ClusterScopedDirname]
       else Join [o.OutputDir, o.NamespacedDirName, info.Namespace]) ∧
    (Plain fileName.data → destDir ≠ "" →
      Dir (if info.Namespace = "" then Join [o.OutputDir, o.ClusterScopedDirname, fileName]
           else Join [o.OutputDir, o.NamespacedDirName, info.Namespace, fileName]) = destDir ∧
        (destDir ≠ "." → destDir ≠ "/" →
          (if info.Namespace = "" then Join [o.OutputDir, o.ClusterScopedDirname, fileName]
           else Join [o.OutputDir, o.NamespacedDirName, info.Namespace, fileName])
            = destDir ++ "/" ++ fileName ∧
          underDir destDir
            (if info.Namespace = "" then Join [o.OutputDir, o.ClusterScopedDirname, fileName]
             else Join [o.OutputDir, o.NamespacedDirName, info.Namespace, fileName])
            = true)) := by
  have hdd : destDir = destDirOf o info := (makeDestDir_ok o fs0 fs1 info destDir hd).1
  have hstep := visitorFn_reaches_write env o fs0 fs1 info objBytes destDir fileName
    hname hm hd hr
  have hdir : destDirOf o info =
      (if info.Namespace = "" then Join [o.OutputDir, o.ClusterScopedDirname]
       else Join [o.OutputDir, o.NamespacedDirName, info.Namespace]) := by
    by_cases hns : info.Namespace = "" <;> simp [destDirOf, hns]
  rw [Run_append env o fs fs0 pre (⟨info, none⟩ :: post) final hpre]
  rw [← Join_destDirOf o info fileName, ← hdir, ← hdd]
  refine ⟨?_, ?_, rfl, ?_⟩
  · intro err hw
    apply Visit_cons_error
    simp only
    rw [hstep]
    simp [writeObject, hw]
  · intro fs2 hw
    refine ⟨?_, (WriteFile_ok _ _ _ _ hw).2, ?_⟩
    · apply Visit_cons_ok
      simp only
      rw [hstep]
      simp [writeObject, hw]
    · rw [(WriteFile_ok _ _ _ _ hw).2, FS.lookup_set_self]
  · intro hplain hne
    have hjoin : ∃ l, destDir = Join l := by
      rw [hdd, hdir]
      by_cases hns : info.Namespace = ""
      · exact ⟨[o.OutputDir, o.ClusterScopedDirname], by simp only [hns, if_true]⟩
      · exact ⟨[o.OutputDir, o.NamespacedDirName, info.Namespace],
          by simp only [hns, if_false]⟩
    obtain ⟨l, hl⟩ := hjoin
    rw [hl] at hne ⊢
    exact Join_plain l fileName hne hplain

/-- C1 at a namespaced object that follows a cluster-scoped one. -/
theorem C1_write_location_witness :
    (Run stdEnv NewSplitManifestsOptions exampleFS
        ⟨[⟨examplePod, none⟩, ⟨exampleDeployment, none⟩], none⟩).1.lookup
      "namespaces/ns1/bar.deployment.yaml" = some (Node.file "doc2") ∧
    Dir "namespaces/ns1/bar.deployment.yaml" = "namespaces/ns1" ∧
    underDir "namespaces/ns1" "namespaces/ns1/bar.deployment.yaml" = true := by
  have h := C1_write_location stdEnv NewSplitManifestsOptions exampleFS
    [("cluster-scoped/foo.pod.yaml", Node.file "doc1"), ("namespaces", Node.dir),
      ("cluster-scoped", Node.dir), (".", Node.dir)]
    [("namespaces/ns1", Node.dir), ("cluster-scoped/foo.pod.yaml", Node.file "doc1"),
      ("namespaces", Node.dir), ("cluster-scoped", Node.dir), (".", Node.dir)]
    [⟨examplePod, none⟩] [] none exampleDeployment
    "doc2" "namespaces/ns1" "bar.deployment.yaml"
    (by decide) (by decide) (by rfl) (by decide) (by decide)
  have h2 := (h.2.1
    [("namespaces/ns1/bar.deployment.yaml", Node.file "doc2"), ("namespaces/ns1", Node.dir),
      ("cluster-scoped/foo.pod.yaml", Node.file "doc1"), ("namespaces", Node.dir),
      ("cluster-scoped", Node.dir), (".", Node.dir)] (by decide)).1
  have h3 := h.2.2.2 ⟨by decide, by decide, by decide, by decide⟩ (by decide)
  have h4 := (h3.2 (by decide) (by decide)).2
  simp only [List.cons_append, List.nil_append] at h2
  refine ⟨?_, h3.1, h4⟩
  rw [h2]
  decide

theorem ToLower_eq_empty (tbl : Char → Char) (s : String) : ToLower tbl s = "" ↔ s = "" := by
  constructor
  · intro h
    have h2 : (ToLower tbl s).data = [] := by rw [h]
    simp [ToLower] at h2
    exact String.ext h2
  · intro h; subst h; rfl

theorem parseTemplate_default :
    parseTemplate NewSplitManifestsOptions.FileNameTemplate =
      .ok [TNode.leaf (Leaf.field ["Name"]), TNode.cond ["GVK", "Kind"] [Leaf.text "."] [],
        TNode.leaf (Leaf.field ["GVK", "Kind"]), TNode.leaf (Leaf.text ".yaml")] := by
  decide

theorem execNodes_default (d : templateData) :
    execNodes d [TNode.leaf (Leaf.field ["Name"]), TNode.cond ["GVK", "Kind"] [Leaf.text "."] [],
        TNode.leaf (Leaf.field ["GVK", "Kind"]), TNode.leaf (Leaf.text ".yaml")] =
      .ok (d.Name ++ (if d.GVK.Kind = "" then "" else "." ++ d.GVK.Kind) ++ ".yaml") := by
  by_cases hk : d.GVK.Kind = ""
  · simp [execNodes, execNode, execLeaf, execLeaves, evalField, Value.print, Value.truth, hk]
  · simp [execNodes, execNode, execLeaf, execLeaves, evalField, Value.print, Value.truth, hk,
      String.append_assoc]

/-- The filename the default template renders for an object. -/
theorem renderFileName_default (m : Object → Except ExtError String) (tbl : Char → Char)
    (info : Info) :
    renderFileName ⟨m, goTemplate, tbl⟩ NewSplitManifestsOptions info =
      .ok (info.Name ++
        (if info.Object.gvk.Kind = "" then "" else "." ++ ToLower tbl info.Object.gvk.Kind)
        ++ ".yaml") := by
  have hp : goTemplate NewSplitManifestsOptions.FileNameTemplate =
      .ok (fun d => execNodes d
        [TNode.leaf (Leaf.field ["Name"]), TNode.cond ["GVK", "Kind"] [Leaf.text "."] [],
          TNode.leaf (Leaf.field ["GVK", "Kind"]), TNode.leaf (Leaf.text ".yaml")]) := by
    unfold goTemplate
    rw [parseTemplate_default]
  have hne : info.Name ++
      (if info.Object.gvk.Kind = "" then "" else "." ++ ToLower tbl info.Object.gvk.Kind)
      ++ ".yaml" ≠ "" := by
    intro h
    have h2 := congrArg String.data h
    simp [String.data_append] at h2
  unfold renderFileName
  simp only [hp, execNodes_default, mkTemplateData, ToLower_eq_empty]
  rw [if_neg hne]

/-- The lower-case mapping of the model, by the lower-case function of the Lean
library on ASCII and the case table above it. -/
theorem ToLower_eq (tbl : Char → Char) (s : String) :
    ToLower tbl s =
      String.mk (s.data.map (fun c => if c.toNat ≤ 0x7F then c.toLower else tbl c)) := rfl

theorem unicodeToLower_capital (tbl : Char → Char) (a b : Char)
    (h1 : 65 ≤ a.toNat) (h2 : a.toNat ≤ 90) (hb : b.toNat = a.toNat + 32) :
    unicodeToLower tbl a = unicodeToLower tbl b := by
  have hA : 'A'.toNat = 65 := by decide
  have hZ : 'Z'.toNat = 90 := by decide
  have ha : 'a'.toNat = 97 := by decide
  have e1 : unicodeToLower tbl a = b := by
    unfold unicodeToLower
    rw [hA, hZ, ha, if_pos (by omega), if_pos ⟨h1, h2⟩]
    have : a.toNat + (97 - 65) = b.toNat := by omega
    rw [this, Char.ofNat_toNat]
  have e2 : unicodeToLower tbl b = b := by
    unfold unicodeToLower
    rw [hA, hZ, if_pos (by omega), if_neg (by omega)]
  rw [e1, e2]

theorem unicodeToLower_above (tbl : Char → Char) (a : Char) (h : 0x7F < a.toNat) :
    unicodeToLower tbl a = tbl a := by
  unfold unicodeToLower
  rw [if_neg (by omega)]

theorem map_unicodeToLower_of_sameLetter (tbl : Char → Char) (l1 l2 : List Char)
    (h : List.Forall₂ (sameLetter tbl) l1 l2) :
    l1.map (unicodeToLower tbl) = l2.map (unicodeToLower tbl) := by
  induction h with
  | nil => rfl
  | cons hab _ ih =>
    simp only [List.map_cons, ih]
    congr 1
    rcases hab with rfl | ⟨h1, h2, h3⟩ | ⟨h1, h2, h3⟩ | ⟨h1, h2, h3⟩
    · rfl
    · exact unicodeToLower_capital tbl _ _ h1 h2 h3
    · exact (unicodeToLower_capital tbl _ _ h1 h2 h3).symm
    · rw [unicodeToLower_above tbl _ h1, unicodeToLower_above tbl _ h2, h3]

theorem ToLower_of_differOnlyInCase (tbl : Char → Char) (k1 k2 : String)
    (h : differOnlyInCase tbl k1 k2) : ToLower tbl k1 = ToLower tbl k2 := by
  unfold ToLower
  rw [map_unicodeToLower_of_sameLetter tbl k1.data k2.data h]

/-- C2: the default filename template, executed on the template data `Run`
builds for an object, renders the name, then `.` and the lower-cased kind only
when the kind is not empty, then `.yaml`; the lower-cased kind is the kind with
every ASCII rune mapped by the lower-case function of the Lean library and
every other rune by the Unicode case table.  The data holds the group, version
and kind lower-cased in that way and the unchanged name and namespace; an
empty kind gives the name followed by `.yaml`; two objects of one name whose
kinds differ only in letter case get the same filename. -/
theorem C2_default_template (m : Object → Except ExtError String) (tbl : Char → Char)
    (info : Info) :
    renderFileName ⟨m, goTemplate, tbl⟩ NewSplitManifestsOptions info =
        .ok (info.Name ++
          (if info.Object.gvk.Kind = "" then ""
           else "." ++ String.mk (info.Object.gvk.Kind.data.map
              (fun c => if c.toNat ≤ 0x7F then c.toLower else tbl c)))
          ++ ".yaml") ∧
      mkTemplateData ⟨m, goTemplate, tbl⟩ info =
        { Namespace := info.Namespace
          Name := info.Name
          GVK :=
            { Group := String.mk (info.Object.gvk.Group.data.map
                (fun c => if c.toNat ≤ 0x7F then c.toLower else tbl c))
              Version := String.mk (info.Object.gvk.Version.data.map
                (fun c => if c.toNat ≤ 0x7F then c.toLower else tbl c))
              Kind := String.mk (info.Object.gvk.Kind.data.map
                (fun c => if c.toNat ≤ 0x7F then c.toLower else tbl c)) } } ∧
      (info.Object.gvk.Kind = "" →
        renderFileName ⟨m, goTemplate, tbl⟩ NewSplitManifestsOptions info =
          .ok (info.Name ++ ".yaml")) ∧
      (∀ other : Info, other.Name = info.Name →
        differOnlyInCase tbl other.Object.gvk.Kind info.Object.gvk.Kind →
        renderFileName ⟨m, goTemplate, tbl⟩ NewSplitManifestsOptions other =
          renderFileName ⟨m, goTemplate, tbl⟩ NewSplitManifestsOptions info) := by
  refine ⟨?_, ?_, ?_, ?_⟩
  · rw [renderFileName_default, ToLower_eq]
  · simp only [mkTemplateData, ToLower_eq]
  · intro hk
    rw [renderFileName_default, hk]
    simp
  · intro other hn hk
    have hlow := ToLower_of_differOnlyInCase tbl _ _ hk
    rw [renderFileName_default, renderFileName_default, hn, hlow]
    have : (other.Object.gvk.Kind = "") = (info.Object.gvk.Kind = "") := by
      rw [← ToLower_eq_empty tbl other.Object.gvk.Kind, hlow, ToLower_eq_empty]
    simp only [this]

/-- C2 at the kinds `Pod` and `POD`, which both give `foo.pod.yaml`, and at an
empty kind. -/
theorem C2_default_template_witness :
    renderFileName stdEnv NewSplitManifestsOptions examplePod = .ok "foo.pod.yaml" ∧
    renderFileName stdEnv NewSplitManifestsOptions
        { examplePod with Object := { gvk := ⟨"", "v1", "POD"⟩, content := "other" } } =
      .ok "foo.pod.yaml" ∧
    renderFileName stdEnv NewSplitManifestsOptions
        { examplePod with Object := { gvk := ⟨"", "v1", ""⟩, content := "doc1" } } =
      .ok "foo.yaml" := by
  have h1 := (C2_default_template stdEnv.marshal stdEnv.lowerTable examplePod).1
  have h2 := (C2_default_template stdEnv.marshal stdEnv.lowerTable examplePod).2.2.2
      { examplePod with Object := { gvk := ⟨"", "v1", "POD"⟩, content := "other" } }
      (by decide) (by unfold differOnlyInCase sameLetter; decide)
  have h3 := (C2_default_template stdEnv.marshal stdEnv.lowerTable
      { examplePod with Object := { gvk := ⟨"", "v1", ""⟩, content := "doc1" } }).2.2.1
      (by decide)
  exact ⟨h1, h2.trans h1, h3⟩

/-- C3, as stated, fails: the kind `Pod` does not give `foo.Pod.yaml`. -/
theorem C3_counterexample :
    renderFileName stdEnv NewSplitManifestsOptions examplePod ≠ .ok "foo.Pod.yaml" := by
  decide

/-- C3, amended: with the default template an object named `foo` of kind `Pod`
is given the filename `foo.pod.yaml`, the kind in lower case, and an object
named `foo` with an empty kind is given `foo.yaml`. -/
theorem C3_default_examples (m : Object → Except ExtError String) (tbl : Char → Char)
    (source ns group version content : String) :
    renderFileName ⟨m, goTemplate, tbl⟩ NewSplitManifestsOptions
        { Source := source, Namespace := ns, Name := "foo"
          Object := { gvk := ⟨group, version, "Pod"⟩, content := content } } =
      .ok "foo.pod.yaml" ∧
    renderFileName ⟨m, goTemplate, tbl⟩ NewSplitManifestsOptions
        { Source := source, Namespace := ns, Name := "foo"
          Object := { gvk := ⟨group, version, ""⟩, content := content } } =
      .ok "foo.yaml" := by
  constructor
  · rw [renderFileName_default]
    have h1 : ToLower tbl "Pod" = "pod" := by
      simp [ToLower, unicodeToLower]
    simp only [h1]
    rfl
  · rw [renderFileName_default]
    rfl

/-- The destination directory step adds no file and changes none. -/
theorem makeDestDir_files (o : SplitManifestsOptions) (fs fs1 : FS) (info : Info)
    (destDir : String) (h : makeDestDir o fs info = .ok (fs1, destDir)) :
    (∀ p c, fs1.lookup p = some (Node.file c) ↔ fs.lookup p = some (Node.file c)) ∧
      ∀ P, FS.files P fs1 = FS.files P fs := by
  obtain ⟨_, h2, _⟩ := makeDestDir_ok o fs fs1 info destDir h
  rcases h2 with rfl | ⟨hn, rfl⟩
  · exact ⟨fun _ _ => Iff.rfl, fun _ => rfl⟩
  · refine ⟨fun p c => ?_, fun P => FS.files_set_dir P fs destDir hn⟩
    by_cases hp : p = destDir
    · subst hp
      rw [FS.lookup_set_self, hn]
      simp
    · rw [FS.lookup_set_ne _ _ _ _ hp]

/-- C4, as stated, fails: for an object without a name the template
`{{ .Name }}` renders the empty string, and `Run` fails on the missing name,
not with the empty-result error. -/
theorem C4_counterexample :
    renderFileName stdEnv (optionsWithTemplate "\x7b\x7b .Name \x7d\x7d") exampleNameless =
        .error RunError.emptyFilename ∧
      Run stdEnv (optionsWithTemplate "\x7b\x7b .Name \x7d\x7d") exampleFS
          ⟨[⟨exampleNameless, none⟩], none⟩ = (exampleFSDirs, some RunError.nameEmpty) ∧
      RunError.nameEmpty ≠ RunError.emptyFilename := by
  decide

/-- C4, amended: for every object that reaches the rendering of its filename
(the objects before it are processed without error, its name is not empty, its
serialization and its destination directory succeed) and every filename
template whose rendering for the object is the empty string, `Run` fails with
the empty-result error, and no file is written for the object: the files and
their contents are those from before the object was processed. -/
theorem C4_empty_filename (env : Env) (o : SplitManifestsOptions) (fs fs0 fs1 : FS)
    (pre post : List VisitItem) (final : Option ExtError) (info : Info)
    (objBytes destDir : String) (t : templateData → Except ExtError String)
    (hpre : Run env o fs ⟨pre, none⟩ = (fs0, none))
    (hname : info.Name ≠ "")
    (hm : env.marshal info.Object = .ok objBytes)
    (hd : makeDestDir o fs0 info = .ok (fs1, destDir))
    (hparse : env.parse o.FileNameTemplate = .ok t)
    (hexec : t (mkTemplateData env info) = .ok "") :
    Run env o fs ⟨pre ++ ⟨info, none⟩ :: post, final⟩ = (fs1, some RunError.emptyFilename) ∧
      (∀ p c, fs1.lookup p = some (Node.file c) ↔ fs0.lookup p = some (Node.file c)) ∧
      ∀ P, FS.files P fs1 = FS.files P fs0 := by
  refine ⟨?_, makeDestDir_files o fs0 fs1 info destDir hd⟩
  rw [Run_append env o fs fs0 pre (⟨info, none⟩ :: post) final hpre]
  apply Visit_cons_error
  have hr : renderFileName env o info = .error RunError.emptyFilename := by
    simp [renderFileName, hparse, hexec]
  simp [visitorFn, hname, hm, hd, hr]

/-- C4 at a cluster-scoped object and the template `{{ .Namespace }}`. -/
theorem C4_empty_filename_witness :
    Run stdEnv (optionsWithTemplate "\x7b\x7b .Namespace \x7d\x7d") exampleFS
        ⟨[] ++ [⟨examplePod, none⟩], none⟩ = (exampleFSDirs, some RunError.emptyFilename) :=
  (C4_empty_filename stdEnv (optionsWithTemplate "\x7b\x7b .Namespace \x7d\x7d") exampleFS
    exampleFSDirs exampleFSDirs [] [] none examplePod "doc1" "cluster-scoped"
    (fun d => execNodes d [TNode.leaf (Leaf.field ["Namespace"])])
    (by decide) (by decide) (by rfl) (by decide) (by rfl) (by decide)).1

/-- C5: `Validate` returns an error exactly when the list of input filenames
is empty, and the command calls `Validate` before `Run`: with no input file it
returns the validation error and the file system is unchanged. -/
theorem C5_validate_first (env : Env) (o : SplitManifestsOptions) (fs : FS) (r : Visitor) :
    (Validate o ≠ none ↔ o.FileNameFlags.Filenames = []) ∧
      (Validate o = none ↔ o.FileNameFlags.Filenames ≠ []) ∧
      (o.FileNameFlags.Filenames = [] → RunE env o fs r = (fs, some RunError.noFilename)) ∧
      (o.FileNameFlags.Filenames ≠ [] → RunE env o fs r = Run env o fs r) := by
  by_cases h : o.FileNameFlags.Filenames = []
  · simp [Validate, RunE, h]
  · simp [Validate, RunE, Complete, h]

/-- C5 at the default options, which name no input file. -/
theorem C5_validate_first_witness :
    RunE stdEnv NewSplitManifestsOptions exampleFS ⟨[⟨examplePod, none⟩], none⟩ =
      (exampleFS, some RunError.noFilename) :=
  (C5_validate_first stdEnv NewSplitManifestsOptions exampleFS
    ⟨[⟨examplePod, none⟩], none⟩).2.2.1 (by decide)

/-- C6, as stated, fails: two nameless objects from different files and of
different group, version and kind are answered with the same error, which
therefore names neither the source nor the group/version/kind. -/
theorem C6_counterexample :
    (Run stdEnv NewSplitManifestsOptions exampleFS ⟨[⟨exampleNameless, none⟩], none⟩).2 =
        some RunError.nameEmpty ∧
      (Run stdEnv NewSplitManifestsOptions exampleFS ⟨[⟨exampleNameless2, none⟩], none⟩).2 =
        some RunError.nameEmpty ∧
      exampleNameless.Source ≠ exampleNameless2.Source ∧
      exampleNameless.Object.gvk.Group ≠ exampleNameless2.Object.gvk.Group ∧
      exampleNameless.Object.gvk.Version ≠ exampleNameless2.Object.gvk.Version ∧
      exampleNameless.Object.gvk.Kind ≠ exampleNameless2.Object.gvk.Kind := by
  decide

/-- C6, amended: for every decoded object whose name is empty, `Run` fails
with the error `name can't be empty`, which carries nothing of the object, and
the check happens before the write: no directory is created and no file is
written for the object, the file system is as the objects before it left it. -/
theorem C6_empty_name (env : Env) (o : SplitManifestsOptions) (fs fs0 : FS)
    (pre post : List VisitItem) (final : Option ExtError) (info : Info)
    (hpre : Run env o fs ⟨pre, none⟩ = (fs0, none))
    (hname : info.Name = "") :
    Run env o fs ⟨pre ++ ⟨info, none⟩ :: post, final⟩ = (fs0, some RunError.nameEmpty) := by
  rw [Run_append env o fs fs0 pre (⟨info, none⟩ :: post) final hpre]
  apply Visit_cons_error
  simp [visitorFn, hname]

/-- C6 at a nameless object that follows a named one. -/
theorem C6_empty_name_witness :
    Run stdEnv NewSplitManifestsOptions exampleFS
        ⟨[⟨examplePod, none⟩] ++ [⟨exampleNameless, none⟩], none⟩ =
      (("cluster-scoped/foo.pod.yaml", Node.file "doc1") :: exampleFSDirs,
        some RunError.nameEmpty) :=
  C6_empty_name stdEnv NewSplitManifestsOptions exampleFS
    (("cluster-scoped/foo.pod.yaml", Node.file "doc1") :: exampleFSDirs)
    [⟨examplePod, none⟩] [] none exampleNameless (by decide) (by decide)

/-! ### Successful steps -/

/-- A successful visitor function went through every step. -/
theorem visitorFn_ok (env : Env) (o : SplitManifestsOptions) (fs fs2 : FS)
    (info : Info) (err : Option ExtError)
    (h : visitorFn env o fs info err = (fs2, none)) :
    ∃ objBytes fs1 fileName, err = none ∧ info.Name ≠ "" ∧
      env.marshal info.Object = .ok objBytes ∧
      makeDestDir o fs info = .ok (fs1, destDirOf o info) ∧
      renderFileName env o info = .ok fileName ∧
      WriteFile fs1 (Join [destDirOf o info, fileName]) objBytes = .ok fs2 := by
  unfold visitorFn at h
  cases err with
  | some x => simp at h
  | none =>
    simp only at h
    by_cases hname : info.Name = ""
    · simp [hname] at h
    · simp only [hname, if_false] at h
      cases hm : env.marshal info.Object with
      | error x => simp [hm] at h
      | ok objBytes =>
        simp only [hm] at h
        cases hd : makeDestDir o fs info with
        | error x => simp [hd] at h
        | ok pr =>
          obtain ⟨fs1, destDir⟩ := pr
          simp only [hd] at h
          have hdd := (makeDestDir_ok o fs fs1 info destDir hd).1
          subst hdd
          cases hr : renderFileName env o info with
          | error x => simp [hr] at h
          | ok fileName =>
            simp only [hr, writeObject] at h
            cases hw : WriteFile fs1 (Join [destDirOf o info, fileName]) objBytes with
            | error x => simp [hw] at h
            | ok fs3 =>
              simp [hw] at h
              subst h
              exact ⟨objBytes, fs1, fileName, rfl, hname, rfl, rfl, rfl, hw⟩

theorem makeDestDir_grows (o : SplitManifestsOptions) (fs fs1 : FS) (info : Info)
    (destDir : String) (h : makeDestDir o fs info = .ok (fs1, destDir)) : FS.Grows fs fs1 := by
  intro p
  exact ⟨fun hp => makeDestDir_keeps o fs fs1 info destDir h p _ hp,
    fun c hp => ⟨c, makeDestDir_keeps o fs fs1 info destDir h p _ hp⟩⟩

theorem visitorFn_grows (env : Env) (o : SplitManifestsOptions) (fs fs2 : FS)
    (info : Info) (err : Option ExtError)
    (h : visitorFn env o fs info err = (fs2, none)) : FS.Grows fs fs2 := by
  obtain ⟨objBytes, fs1, fileName, _, _, _, hd, _, hw⟩ := visitorFn_ok env o fs fs2 info err h
  exact (makeDestDir_grows o fs fs1 info _ hd).trans (WriteFile_grows _ _ _ _ hw)

theorem Visit_grows (env : Env) (o : SplitManifestsOptions) (items : List VisitItem) :
    ∀ fs fs2, Visit (visitorFn env o) items none fs = (fs2, none) → FS.Grows fs fs2 := by
  induction items with
  | nil =>
    intro fs fs2 h
    simp [Visit] at h
    subst h
    exact FS.Grows.refl fs
  | cons it rest ih =>
    intro fs fs2 h
    simp only [Visit] at h
    cases hfn : visitorFn env o fs it.info it.err with
    | mk fs1 oe =>
      cases oe with
      | some e => simp [hfn] at h
      | none =>
        simp only [hfn] at h
        exact (visitorFn_grows env o fs fs1 it.info it.err hfn).trans (ih fs1 fs2 h)

theorem Visit_append_ok (fn : FS → Info → Option ExtError → FS × Option RunError)
    (l1 l2 : List VisitItem) :
    ∀ fs fs2, Visit fn (l1 ++ l2) none fs = (fs2, none) →
      ∃ fsm, Visit fn l1 none fs = (fsm, none) ∧ Visit fn l2 none fsm = (fs2, none) := by
  induction l1 with
  | nil => intro fs fs2 h; exact ⟨fs, by simp [Visit], h⟩
  | cons it rest ih =>
    intro fs fs2 h
    simp only [List.cons_append, Visit] at h ⊢
    cases hfn : fn fs it.info it.err with
    | mk fs1 oe =>
      cases oe with
      | some e => simp [hfn] at h
      | none =>
        simp only [hfn] at h ⊢
        exact ih fs1 fs2 h

theorem FS.Grows.exists_of {a b : FS} (h : FS.Grows a b) (p : String)
    (hp : a.lookup p ≠ none) : b.lookup p ≠ none := by
  cases hl : a.lookup p with
  | none => exact absurd hl hp
  | some n =>
    cases n with
    | dir => rw [(h p).1 hl]; simp
    | file c =>
      obtain ⟨c1, hc1⟩ := (h p).2 c hl
      rw [hc1]; simp

/-- A successful creation of the top-level directories: both exist afterwards,
no file was added or changed, and nothing that existed is gone. -/
theorem makeDirs_ok (o : SplitManifestsOptions) (fs fs1 : FS)
    (h : makeDirs o [o.ClusterScopedDirname, o.NamespacedDirName] fs = (fs1, none)) :
    fs1.lookup (Join [o.OutputDir, o.ClusterScopedDirname]) ≠ none ∧
      fs1.lookup (Join [o.OutputDir, o.NamespacedDirName]) ≠ none ∧
      (∀ P, FS.files P fs1 = FS.files P fs) ∧ FS.Grows fs fs1 := by
  simp only [makeDirs] at h
  cases h1 : Mkdir fs (Join [o.OutputDir, o.ClusterScopedDirname]) with
  | error e => simp [h1] at h
  | ok fsa =>
    simp only [h1] at h
    cases h2 : Mkdir fsa (Join [o.OutputDir, o.NamespacedDirName]) with
    | error e => simp [h2] at h
    | ok fsb =>
      simp [h2] at h
      subst h
      obtain ⟨hn1, hs1⟩ := Mkdir_ok _ _ _ h1
      obtain ⟨hn2, hs2⟩ := Mkdir_ok _ _ _ h2
      have hg1 := Mkdir_grows _ _ _ h1
      have hg2 := Mkdir_grows _ _ _ h2
      refine ⟨?_, ?_, ?_, hg1.trans hg2⟩
      · apply hg2.exists_of
        rw [hs1, FS.lookup_set_self]; simp
      · rw [hs2, FS.lookup_set_self]; simp
      · intro P
        rw [hs2, FS.files_set_dir P fsa _ hn2, hs1, FS.files_set_dir P fs _ hn1]

/-- The parts of a successful run. -/
theorem Run_ok (env : Env) (o : SplitManifestsOptions) (fs fs2 : FS)
    (items : List VisitItem) (h : Run env o fs ⟨items, none⟩ = (fs2, none)) :
    ∃ fs1, makeDirs o [o.ClusterScopedDirname, o.NamespacedDirName] fs = (fs1, none) ∧
      Visit (visitorFn env o) items none fs1 = (fs2, none) := by
  unfold Run at h
  cases hm : makeDirs o [o.ClusterScopedDirname, o.NamespacedDirName] fs with
  | mk fs1 oe =>
    cases oe with
    | some e => simp [hm] at h
    | none =>
      simp only [hm] at h
      exact ⟨fs1, rfl, h⟩

/-- C8: `Run` stops at the first error of the visitor function and returns it
as it is, and each step of the visitor function fails the object when the step
fails: an error handed over by the visitor, an empty name, the serialization,
the creation of the namespace directory (other than `EEXIST`), the parsing and
the execution of the filename template, an empty filename, and the write.  The
outcome is the same whatever objects follow, so none of them is processed, and
nothing is rolled back: every file and directory that was there after the
objects before the failing one is still there with the same content. -/
theorem C8_first_error (env : Env) (o : SplitManifestsOptions) (fs fs0 : FS)
    (pre post : List VisitItem) (final : Option ExtError) (info : Info)
    (hpre : Run env o fs ⟨pre, none⟩ = (fs0, none)) :
    (∀ (bad : VisitItem) (fs2 : FS) (e : RunError),
      visitorFn env o fs0 bad.info bad.err = (fs2, some e) →
      Run env o fs ⟨pre ++ bad :: post, final⟩ = (fs2, some e) ∧
        ∀ p n, fs0.lookup p = some n → fs2.lookup p = some n) ∧
    (∀ e, Run env o fs ⟨pre ++ ⟨info, some e⟩ :: post, final⟩ =
      (fs0, some (RunError.visitor e))) ∧
    (info.Name = "" →
      Run env o fs ⟨pre ++ ⟨info, none⟩ :: post, final⟩ = (fs0, some RunError.nameEmpty)) ∧
    (info.Name ≠ "" → ∀ e, env.marshal info.Object = .error e →
      Run env o fs ⟨pre ++ ⟨info, none⟩ :: post, final⟩ =
        (fs0, some (RunError.cantMarshal info e))) ∧
    (info.Name ≠ "" → ∀ objBytes err, env.marshal info.Object = .ok objBytes →
      info.Namespace ≠ "" →
      Mkdir fs0 (Join [o.OutputDir, o.NamespacedDirName, info.Namespace]) = .error err →
      err ≠ Errno.EEXIST →
      Run env o fs ⟨pre ++ ⟨info, none⟩ :: post, final⟩ =
        (fs0, some (RunError.cantMakeDirectory
          (Join [o.OutputDir, o.NamespacedDirName, info.Namespace]) err))) ∧
    (info.Name ≠ "" → ∀ objBytes fs1 destDir, env.marshal info.Object = .ok objBytes →
      makeDestDir o fs0 info = .ok (fs1, destDir) →
      (∀ p n, fs0.lookup p = some n → fs1.lookup p = some n) ∧
      (∀ e, env.parse o.FileNameTemplate = .error e →
        Run env o fs ⟨pre ++ ⟨info, none⟩ :: post, final⟩ =
          (fs1, some (RunError.cantParseTemplate o.FileNameTemplate e))) ∧
      (∀ t e, env.parse o.FileNameTemplate = .ok t →
        t (mkTemplateData env info) = .error e →
        Run env o fs ⟨pre ++ ⟨info, none⟩ :: post, final⟩ =
          (fs1, some (RunError.cantExecuteTemplate e))) ∧
      (∀ t, env.parse o.FileNameTemplate = .ok t →
        t (mkTemplateData env info) = .ok "" →
        Run env o fs ⟨pre ++ ⟨info, none⟩ :: post, final⟩ =
          (fs1, some RunError.emptyFilename)) ∧
      (∀ t fileName err, env.parse o.FileNameTemplate = .ok t →
        t (mkTemplateData env info) = .ok fileName → fileName ≠ "" →
        WriteFile fs1 (Join [destDir, fileName]) objBytes = .error err →
        Run env o fs ⟨pre ++ ⟨info, none⟩ :: post, final⟩ =
          (fs1, some (RunError.cantWriteFile (Join [destDir, fileName]) err)))) := by
  have key : ∀ (bad : VisitItem) (fs2 : FS) (e : RunError),
      visitorFn env o fs0 bad.info bad.err = (fs2, some e) →
      Run env o fs ⟨pre ++ bad :: post, final⟩ = (fs2, some e) := by
    intro bad fs2 e hbad
    rw [Run_append env o fs fs0 pre (bad :: post) final hpre]
    exact Visit_cons_error _ bad post final fs0 fs2 e hbad
  refine ⟨fun bad fs2 e hbad => ⟨key bad fs2 e hbad,
    visitorFn_error_keeps env o fs0 fs2 bad.info bad.err e hbad⟩, ?_, ?_, ?_, ?_, ?_⟩
  · intro e
    exact key ⟨info, some e⟩ _ _ (by simp [visitorFn])
  · intro hname
    exact key ⟨info, none⟩ _ _ (by simp [visitorFn, hname])
  · intro hname e hm
    exact key ⟨info, none⟩ _ _ (by simp [visitorFn, hname, hm])
  · intro hname objBytes err hm hns hmk herr
    have hd : makeDestDir o fs0 info = .error (RunError.cantMakeDirectory
        (Join [o.OutputDir, o.NamespacedDirName, info.Namespace]) err) := by
      cases err <;> simp_all [makeDestDir, IsExist]
    exact key ⟨info, none⟩ _ _ (by simp [visitorFn, hname, hm, hd])
  · intro hname objBytes fs1 destDir hm hd
    refine ⟨fun p n hp => makeDestDir_keeps o fs0 fs1 info destDir hd p n hp, ?_, ?_, ?_, ?_⟩
    · intro e hp
      exact key ⟨info, none⟩ _ _ (by simp [visitorFn, hname, hm, hd, renderFileName, hp])
    · intro t e hp he
      exact key ⟨info, none⟩ _ _ (by simp [visitorFn, hname, hm, hd, renderFileName, hp, he])
    · intro t hp he
      exact key ⟨info, none⟩ _ _ (by simp [visitorFn, hname, hm, hd, renderFileName, hp, he])
    · intro t fileName err hp he hne hw
      exact key ⟨info, none⟩ _ _
        (by simp [visitorFn, hname, hm, hd, renderFileName, hp, he, hne, writeObject, hw])

/-- C8 at a failure of each step: an error handed over by the visitor, an empty
name, the serialization, the namespace directory, the parsing and the
execution of the template, an empty filename, and the write. -/
theorem C8_first_error_witness :
    Run stdEnv NewSplitManifestsOptions exampleFS
        ⟨[⟨examplePod, none⟩] ++ ⟨exampleDeployment, some "decode failed"⟩ ::
          [⟨exampleDeployment, none⟩], none⟩ =
      (exampleFSPod, some (RunError.visitor "decode failed")) ∧
    Run stdEnv NewSplitManifestsOptions exampleFS
        ⟨[⟨examplePod, none⟩] ++ ⟨exampleNameless, none⟩ :: [⟨exampleDeployment, none⟩], none⟩ =
      (exampleFSPod, some RunError.nameEmpty) ∧
    Run exampleEnvMarshal NewSplitManifestsOptions exampleFS
        ⟨[⟨examplePod, none⟩] ++ ⟨exampleDeployment, none⟩ :: [⟨exampleNameless, none⟩], none⟩ =
      (exampleFSPod, some (RunError.cantMarshal exampleDeployment "marshal failed")) ∧
    Run stdEnv NewSplitManifestsOptions exampleFS
        ⟨[⟨examplePod, none⟩] ++ ⟨exampleDeepNamespace, none⟩ :: [⟨exampleDeployment, none⟩],
          none⟩ =
      (exampleFSPod, some (RunError.cantMakeDirectory "namespaces/a/b" Errno.ENOENT)) ∧
    Run stdEnv (optionsWithTemplate "\x7b\x7b .Name") exampleFS
        ⟨[] ++ ⟨examplePod, none⟩ :: [⟨exampleDeployment, none⟩], none⟩ =
      (exampleFSDirs, some (RunError.cantParseTemplate "\x7b\x7b .Name" "unclosed action")) ∧
    Run stdEnv (optionsWithTemplate "\x7b\x7b .Nope \x7d\x7d") exampleFS
        ⟨[] ++ ⟨examplePod, none⟩ :: [⟨exampleDeployment, none⟩], none⟩ =
      (exampleFSDirs, some (RunError.cantExecuteTemplate "can't evaluate field")) ∧
    Run stdEnv (optionsWithTemplate "\x7b\x7b .Namespace \x7d\x7d") exampleFS
        ⟨[] ++ ⟨examplePod, none⟩ :: [⟨exampleDeployment, none⟩], none⟩ =
      (exampleFSDirs, some RunError.emptyFilename) ∧
    Run stdEnv NewSplitManifestsOptions exampleFS
        ⟨[⟨examplePod, none⟩] ++ ⟨exampleNamed "x/y" "doc6", none⟩ ::
          [⟨exampleDeployment, none⟩], none⟩ =
      (exampleFSPod, some (RunError.cantWriteFile "cluster-scoped/x/y.yaml" Errno.ENOENT)) :=
  ⟨(C8_first_error stdEnv NewSplitManifestsOptions exampleFS exampleFSPod
      [⟨examplePod, none⟩] [⟨exampleDeployment, none⟩] none exampleDeployment
      (by decide)).2.1 "decode failed",
    (C8_first_error stdEnv NewSplitManifestsOptions exampleFS exampleFSPod
      [⟨examplePod, none⟩] [⟨exampleDeployment, none⟩] none exampleNameless
      (by decide)).2.2.1 (by decide),
    (C8_first_error exampleEnvMarshal NewSplitManifestsOptions exampleFS exampleFSPod
      [⟨examplePod, none⟩] [⟨exampleNameless, none⟩] none exampleDeployment
      (by decide)).2.2.2.1 (by decide) "marshal failed" (by decide),
    (C8_first_error stdEnv NewSplitManifestsOptions exampleFS exampleFSPod
      [⟨examplePod, none⟩] [⟨exampleDeployment, none⟩] none exampleDeepNamespace
      (by decide)).2.2.2.2.1 (by decide) "doc5" Errno.ENOENT (by decide) (by decide)
      (by decide) (by decide),
    ((C8_first_error stdEnv (optionsWithTemplate "\x7b\x7b .Name") exampleFS exampleFSDirs
      [] [⟨exampleDeployment, none⟩] none examplePod
      (by decide)).2.2.2.2.2 (by decide) "doc1" exampleFSDirs "cluster-scoped"
      (by decide) (by decide)).2.1 "unclosed action" (by rfl),
    ((C8_first_error stdEnv (optionsWithTemplate "\x7b\x7b .Nope \x7d\x7d") exampleFS
      exampleFSDirs [] [⟨exampleDeployment, none⟩] none examplePod
      (by decide)).2.2.2.2.2 (by decide) "doc1" exampleFSDirs "cluster-scoped"
      (by decide) (by decide)).2.2.1
      (fun d => execNodes d [TNode.leaf (Leaf.field ["Nope"])]) "can't evaluate field"
      (by rfl) (by decide),
    ((C8_first_error stdEnv (optionsWithTemplate "\x7b\x7b .Namespace \x7d\x7d") exampleFS
      exampleFSDirs [] [⟨exampleDeployment, none⟩] none examplePod
      (by decide)).2.2.2.2.2 (by decide) "doc1" exampleFSDirs "cluster-scoped"
      (by decide) (by decide)).2.2.2.1
      (fun d => execNodes d [TNode.leaf (Leaf.field ["Namespace"])]) (by rfl) (by decide),
    ((C8_first_error stdEnv NewSplitManifestsOptions exampleFS exampleFSPod
      [⟨examplePod, none⟩] [⟨exampleDeployment, none⟩] none (exampleNamed "x/y" "doc6")
      (by decide)).2.2.2.2.2 (by decide) "doc6" exampleFSPod "cluster-scoped"
      (by decide) (by decide)).2.2.2.2
      (fun d => execNodes d
        [TNode.leaf (Leaf.field ["Name"]), TNode.cond ["GVK", "Kind"] [Leaf.text "."] [],
          TNode.leaf (Leaf.field ["GVK", "Kind"]), TNode.leaf (Leaf.text ".yaml")])
      "x/y.yaml" Errno.ENOENT (by rfl) (by decide) (by decide) (by decide)⟩

/-- C7: directory creation is asymmetric.  When either top-level scope
directory exists as `Run` starts, `Run` fails with a `can't make directory`
error for one of the two, whatever the visitor would deliver: no object is
processed.  When the directory of the namespace exists as a namespaced object
is processed, that is tolerated: the file system is left as it is and the
processing of the object goes on with the filename and the write. -/
theorem C7_directory_creation (env : Env) (o : SplitManifestsOptions) (fs : FS)
    (info : Info) (objBytes : String) :
    ((fs.lookup (Join [o.OutputDir, o.ClusterScopedDirname]) ≠ none ∨
        fs.lookup (Join [o.OutputDir, o.NamespacedDirName]) ≠ none) →
      ∃ fs1 p err,
        (p = Join [o.OutputDir, o.ClusterScopedDirname] ∨
          p = Join [o.OutputDir, o.NamespacedDirName]) ∧
        ∀ r, Run env o fs r = (fs1, some (RunError.cantMakeDirectory p err))) ∧
    (info.Namespace ≠ "" →
      fs.lookup (Join [o.OutputDir, o.NamespacedDirName, info.Namespace]) = some Node.dir →
      makeDestDir o fs info =
          .ok (fs, Join [o.OutputDir, o.NamespacedDirName, info.Namespace]) ∧
        (info.Name ≠ "" → env.marshal info.Object = .ok objBytes →
          visitorFn env o fs info none =
            match renderFileName env o info with
            | .error e => (fs, some e)
            | .ok fileName =>
              writeObject fs (Join [o.OutputDir, o.NamespacedDirName, info.Namespace])
                fileName objBytes)) := by
  constructor
  · intro hex
    cases h1 : Mkdir fs (Join [o.OutputDir, o.ClusterScopedDirname]) with
    | error e =>
      refine ⟨fs, _, e, Or.inl rfl, fun r => ?_⟩
      simp [Run, makeDirs, h1]
    | ok fsa =>
      obtain ⟨hn1, _⟩ := Mkdir_ok _ _ _ h1
      have hex2 : fs.lookup (Join [o.OutputDir, o.NamespacedDirName]) ≠ none := by
        rcases hex with h | h
        · exact absurd hn1 h
        · exact h
      have hex3 := (Mkdir_grows _ _ _ h1).exists_of _ hex2
      have h2 := Mkdir_exists fsa _ hex3
      refine ⟨fsa, _, Errno.EEXIST, Or.inr rfl, fun r => ?_⟩
      simp [Run, makeDirs, h1, h2]
  · intro hns hdir
    have h2 := Mkdir_exists fs (Join [o.OutputDir, o.NamespacedDirName, info.Namespace])
      (by rw [hdir]; simp)
    have hd : makeDestDir o fs info =
        .ok (fs, Join [o.OutputDir, o.NamespacedDirName, info.Namespace]) := by
      simp [makeDestDir, hns, h2, IsExist]
    refine ⟨hd, fun hname hm => ?_⟩
    simp only [visitorFn, hname, if_false, hm, hd]

/-- C7 at an existing cluster-scoped directory, and at a second object of a
namespace whose directory exists. -/
theorem C7_directory_creation_witness :
    (∃ fs1 p err, ∀ r, Run stdEnv NewSplitManifestsOptions
        (("cluster-scoped", Node.dir) :: exampleFS) r =
          (fs1, some (RunError.cantMakeDirectory p err))) ∧
      makeDestDir NewSplitManifestsOptions (("namespaces/ns1", Node.dir) :: exampleFSDirs)
          exampleDeployment =
        .ok (("namespaces/ns1", Node.dir) :: exampleFSDirs, "namespaces/ns1") :=
  ⟨by
      obtain ⟨fs1, p, err, _, h⟩ :=
        (C7_directory_creation stdEnv NewSplitManifestsOptions
          (("cluster-scoped", Node.dir) :: exampleFS) exampleDeployment "doc2").1
          (Or.inl (by decide))
      exact ⟨fs1, p, err, h⟩,
    ((C7_directory_creation stdEnv NewSplitManifestsOptions
      (("namespaces/ns1", Node.dir) :: exampleFSDirs) exampleDeployment "doc2").2
      (by decide) (by decide)).1⟩

/-- A successful step adds the file at its target path and no other. -/
theorem visitorFn_files (env : Env) (o : SplitManifestsOptions) (fs fs2 : FS)
    (info : Info) (err : Option ExtError) (P : String → Bool)
    (h : visitorFn env o fs info err = (fs2, none)) :
    ∃ p, targetPath env o info = some p ∧
      (P p = true → p ∉ FS.files P fs →
        (FS.files P fs2).length = (FS.files P fs).length + 1) ∧
      ∀ q, q ≠ p → (q ∈ FS.files P fs2 ↔ q ∈ FS.files P fs) := by
  obtain ⟨objBytes, fs1, fileName, _, _, _, hd, hr, hw⟩ := visitorFn_ok env o fs fs2 info err h
  have hf := (makeDestDir_files o fs fs1 info _ hd).2 P
  obtain ⟨_, hs⟩ := WriteFile_ok _ _ _ _ hw
  refine ⟨Join [destDirOf o info, fileName], by simp [targetPath, hr], ?_, ?_⟩
  · intro hP hp
    rw [hs, FS.files_set_file_length P fs1 _ _ hP (by rw [hf]; exact hp), hf]
  · intro q hq
    rw [hs, FS.mem_files_set_file P fs1 _ _ q hq, hf]

/-- The files a successful visit adds, when the target paths are pairwise
distinct, satisfy `P` and are not yet files. -/
theorem Visit_files_length (env : Env) (o : SplitManifestsOptions) (P : String → Bool)
    (items : List VisitItem) :
    ∀ fs fs2, Visit (visitorFn env o) items none fs = (fs2, none) →
      (items.map (fun it => targetPath env o it.info)).Nodup →
      (∀ it ∈ items, ∀ p, targetPath env o it.info = some p →
        P p = true ∧ p ∉ FS.files P fs) →
      (FS.files P fs2).length = (FS.files P fs).length + items.length := by
  induction items with
  | nil =>
    intro fs fs2 h _ _
    simp [Visit] at h
    subst h
    simp
  | cons it rest ih =>
    intro fs fs2 h hnd hP
    simp only [Visit] at h
    cases hfn : visitorFn env o fs it.info it.err with
    | mk fs1 oe =>
      cases oe with
      | some e => simp [hfn] at h
      | none =>
        simp only [hfn] at h
        obtain ⟨p, hp, hlen, hmem⟩ := visitorFn_files env o fs fs1 it.info it.err P hfn
        obtain ⟨hPp, hpn⟩ := hP it (by simp) p hp
        simp only [List.map_cons, List.nodup_cons] at hnd
        have hrest := ih fs1 fs2 h hnd.2 (by
          intro it2 hit2 q hq
          obtain ⟨hPq, hqn⟩ := hP it2 (by simp [hit2]) q hq
          have hqp : q ≠ p := by
            intro e
            subst e
            apply hnd.1
            rw [hp, ← hq]
            exact List.mem_map_of_mem _ hit2
          exact ⟨hPq, fun hc => hqn ((hmem q hqp).1 hc)⟩)
        rw [hrest, hlen hPp hpn]
        simp only [List.length_cons]
        omega

/-- C9, as stated, fails: the names `a` and `./a` render to the distinct
filenames `a.yaml` and `./a.yaml`, which `filepath.Join` turns into one path,
so the successful run over the two objects leaves one file in the output tree;
and the name `../c` renders to a filename that `filepath.Join` resolves to a
path outside the scope directories, so the successful run over that one object
leaves no file in the output tree. -/
theorem C9_counterexample :
    renderFileName stdEnv NewSplitManifestsOptions (exampleNamed "a" "doc1") = .ok "a.yaml" ∧
      renderFileName stdEnv NewSplitManifestsOptions (exampleNamed "./a" "doc2") =
        .ok "./a.yaml" ∧
      ("a.yaml" : String) ≠ "./a.yaml" ∧
      FS.files (inOutputTree NewSplitManifestsOptions) exampleFS = [] ∧
      Run stdEnv NewSplitManifestsOptions exampleFS
          ⟨[⟨exampleNamed "a" "doc1", none⟩, ⟨exampleNamed "./a" "doc2", none⟩], none⟩ =
        (("cluster-scoped/a.yaml", Node.file "doc2") :: exampleFSDirs, none) ∧
      (FS.files (inOutputTree NewSplitManifestsOptions)
          (("cluster-scoped/a.yaml", Node.file "doc2") :: exampleFSDirs)).length = 1 ∧
      Run stdEnv NewSplitManifestsOptions exampleFS
          ⟨[⟨exampleNamed "../c" "doc3", none⟩], none⟩ =
        (("c.yaml", Node.file "doc3") :: exampleFSDirs, none) ∧
      (FS.files (inOutputTree NewSplitManifestsOptions)
          (("c.yaml", Node.file "doc3") :: exampleFSDirs)).length = 0 := by
  decide

/-- C9, amended: for every successful run over a sequence of decoded objects
whose target paths `filepath.Join(destDir, fileName)` are pairwise distinct
and lie in the output tree, started with no file in the output tree, the
number of files in the output tree afterwards equals the number of decoded
objects. -/
theorem C9_file_count (env : Env) (o : SplitManifestsOptions) (fs fs2 : FS)
    (items : List VisitItem)
    (hrun : Run env o fs ⟨items, none⟩ = (fs2, none))
    (hempty : FS.files (inOutputTree o) fs = [])
    (hdistinct : (items.map (fun it => targetPath env o it.info)).Nodup)
    (htree : ∀ it ∈ items, ∀ p, targetPath env o it.info = some p → inOutputTree o p = true) :
    (FS.files (inOutputTree o) fs2).length = items.length := by
  obtain ⟨fs1, hdirs, hvisit⟩ := Run_ok env o fs fs2 items hrun
  have hf := (makeDirs_ok o fs fs1 hdirs).2.2.1 (inOutputTree o)
  have h := Visit_files_length env o (inOutputTree o) items fs1 fs2 hvisit hdistinct (by
    intro it hit p hp
    refine ⟨htree it hit p hp, ?_⟩
    rw [hf, hempty]
    simp)
  rw [h, hf, hempty]
  simp

/-- C9 at a cluster-scoped and a namespaced object. -/
theorem C9_file_count_witness :
    (FS.files (inOutputTree NewSplitManifestsOptions)
      [("namespaces/ns1/bar.deployment.yaml", Node.file "doc2"), ("namespaces/ns1", Node.dir),
        ("cluster-scoped/foo.pod.yaml", Node.file "doc1"), ("namespaces", Node.dir),
        ("cluster-scoped", Node.dir), (".", Node.dir)]).length = 2 :=
  C9_file_count stdEnv NewSplitManifestsOptions exampleFS
    [("namespaces/ns1/bar.deployment.yaml", Node.file "doc2"), ("namespaces/ns1", Node.dir),
      ("cluster-scoped/foo.pod.yaml", Node.file "doc1"), ("namespaces", Node.dir),
      ("cluster-scoped", Node.dir), (".", Node.dir)]
    [⟨examplePod, none⟩, ⟨exampleDeployment, none⟩]
    (by decide) (by decide) (by decide) (by decide)

/-- C10: when two objects of one run resolve to the same destination directory
and render to the same filename, and the first has been written, the write of
the second succeeds: the run over the objects up to the second ends without
error, the path then names exactly one entry, and that is a file with the
serialization of the second object. -/
theorem C10_last_writer_wins (env : Env) (o : SplitManifestsOptions) (fs fs1 : FS)
    (pre mid : List VisitItem) (a : VisitItem) (b : Info) (fileName yb : String)
    (hrun : Run env o fs ⟨pre ++ a :: mid, none⟩ = (fs1, none))
    (hdir : destDirOf o a.info = destDirOf o b)
    (hfa : renderFileName env o a.info = .ok fileName)
    (hfb : renderFileName env o b = .ok fileName)
    (hname : b.Name ≠ "")
    (hm : env.marshal b.Object = .ok yb) :
    ∃ fs2, Run env o fs ⟨(pre ++ a :: mid) ++ [⟨b, none⟩], none⟩ = (fs2, none) ∧
      fs2.lookup (Join [destDirOf o b, fileName]) = some (Node.file yb) ∧
      (fs2.filter (fun e => decide (e.1 = Join [destDirOf o b, fileName]))).length = 1 := by
  obtain ⟨fsd, hdirs, hvisit⟩ := Run_ok env o fs fs1 _ hrun
  obtain ⟨fs0, hvpre, hvrest⟩ := Visit_append_ok _ pre (a :: mid) fsd fs1 hvisit
  simp only [Visit] at hvrest
  cases hfn : visitorFn env o fs0 a.info a.err with
  | mk fsa oe =>
    cases oe with
    | some e => simp [hfn] at hvrest
    | none =>
      simp only [hfn] at hvrest
      obtain ⟨ya, fsa1, fa, _, _, _, hda, hra, hwa⟩ := visitorFn_ok env o fs0 fsa _ _ hfn
      rw [hfa] at hra
      cases hra
      have hgmid := Visit_grows env o mid fsa fs1 hvrest
      -- the file of the first object is still a file
      have hfile : ∃ c, fs1.lookup (Join [destDirOf o b, fileName]) = some (Node.file c) := by
        rw [← hdir]
        apply (hgmid _).2 ya
        rw [(WriteFile_ok _ _ _ _ hwa).2, FS.lookup_set_self]
      obtain ⟨c, hc⟩ := hfile
      -- the destination directory exists
      have hdest : makeDestDir o fs1 b = .ok (fs1, destDirOf o b) := by
        by_cases hns : b.Namespace = ""
        · simp [makeDestDir, destDirOf, hns]
        · have hex : fs1.lookup (destDirOf o b) ≠ none := by
            rw [← hdir]
            apply hgmid.exists_of
            apply (WriteFile_grows _ _ _ _ hwa).exists_of
            by_cases hnsa : a.info.Namespace = ""
            · apply (makeDestDir_grows o fs0 fsa1 _ _ hda).exists_of
              apply (Visit_grows env o pre fsd fs0 hvpre).exists_of
              have := (makeDirs_ok o fs fsd hdirs).1
              simpa [destDirOf, hnsa] using this
            · exact (makeDestDir_ok o fs0 fsa1 _ _ hda).2.2 hnsa
          have hmk := Mkdir_exists fs1 _ hex
          have hdd : destDirOf o b = Join [o.OutputDir, o.NamespacedDirName, b.Namespace] := by
            simp [destDirOf, hns]
          rw [hdd] at hmk ⊢
          simp [makeDestDir, hns, hmk, IsExist]
      have hstep : visitorFn env o fs1 b none =
          (fs1.set (Join [destDirOf o b, fileName]) (Node.file yb), none) := by
        rw [visitorFn_reaches_write env o fs1 fs1 b yb _ fileName hname hm hdest hfb]
        simp [writeObject, WriteFile_overwrite fs1 _ yb c hc]
      refine ⟨fs1.set (Join [destDirOf o b, fileName]) (Node.file yb), ?_,
        FS.lookup_set_self _ _ _, ?_⟩
      · rw [Run_append env o fs fs1 (pre ++ a :: mid) [⟨b, none⟩] none hrun]
        simp [Visit, hstep]
      · simp only [FS.set]
        rw [List.filter_cons_of_pos (by simp), List.filter_filter]
        simp

/-- C10 at two objects of one name whose kinds `Pod` and `POD` render to one
filename. -/
theorem C10_last_writer_wins_witness :
    ∃ fs2, Run stdEnv NewSplitManifestsOptions exampleFS
        ⟨([] ++ ⟨examplePod, none⟩ :: []) ++
          [⟨{ examplePod with Object := { gvk := ⟨"", "v1", "POD"⟩, content := "second" } }, none⟩],
          none⟩ = (fs2, none) ∧
      fs2.lookup (Join [destDirOf NewSplitManifestsOptions
        { examplePod with Object := { gvk := ⟨"", "v1", "POD"⟩, content := "second" } },
          "foo.pod.yaml"]) = some (Node.file "second") ∧
      (fs2.filter (fun e => decide (e.1 = Join [destDirOf NewSplitManifestsOptions
        { examplePod with Object := { gvk := ⟨"", "v1", "POD"⟩, content := "second" } },
          "foo.pod.yaml"]))).length = 1 :=
  C10_last_writer_wins stdEnv NewSplitManifestsOptions exampleFS
    (("cluster-scoped/foo.pod.yaml", Node.file "doc1") :: exampleFSDirs)
    [] [] ⟨examplePod, none⟩
    { examplePod with Object := { gvk := ⟨"", "v1", "POD"⟩, content := "second" } }
    "foo.pod.yaml" "second"
    (by decide) (by decide) (by decide) (by decide) (by decide) (by rfl)

end KTools
